import Mathlib

/-!
Verification of the PC-recommendation pipeline: a shallow embedding of the
filtering, scoring and ranking logic of `src/lib/rank.ts` and of the
title-parsing helpers of `src/app/api/recommend/route.ts`, together with
theorems settling the specification's claims about them.

Strings are modelled as `String` / `List Char`; the handful of regular
expressions the code uses are embedded as bespoke matchers (one per pattern)
that reproduce the leftmost-match, greedy-with-backtracking behaviour of the
originals on the character classes involved.  JavaScript numbers are modelled
by `JSNum` (an exact rational, NaN, or an infinity); the program only
branches on comparisons whose outcome is the same for exact rationals as for
IEEE doubles on the values it manipulates.
-/

namespace PcApp

/-! ## Character classes (regex `\s`, `\w`, `\d`) -/

/-- Whitespace characters of the regex class `\s` (the ASCII subset; the
titles and labels this program handles are ASCII). -/
def isWs (c : Char) : Bool :=
  c.toNat == 32 || c.toNat == 9 || c.toNat == 10 || c.toNat == 13 ||
    c.toNat == 11 || c.toNat == 12

/-- Word characters of the regex class `\w`, i.e. `[A-Za-z0-9_]`. -/
def isWordChar (c : Char) : Bool :=
  (48 ≤ c.toNat && c.toNat ≤ 57) || (65 ≤ c.toNat && c.toNat ≤ 90) ||
    (97 ≤ c.toNat && c.toNat ≤ 122) || c.toNat == 95

/-- Digit characters of the regex class `\d`, i.e. `[0-9]`. -/
def isDigitChar (c : Char) : Bool :=
  48 ≤ c.toNat && c.toNat ≤ 57

/-- Numeric value of a digit string, as produced by JavaScript's `Number`
on a capture of `\d+`. -/
def digitsToNat (d : List Char) : ℕ :=
  d.foldl (fun acc c => acc * 10 + (c.toNat - 48)) 0

/-- Lowercased character content of a string, as in `text.toLowerCase()`. -/
def lowerStr (s : String) : List Char :=
  s.data.map Char.toLower

/-! ## Matcher combinators -/

/-- A word boundary `\b` sits before the current position (for a pattern
starting with a word character) iff the preceding character is absent or not
a word character. -/
def boundaryBefore (prev : Option Char) : Bool :=
  match prev with
  | none => true
  | some c => !isWordChar c

/-- A word boundary `\b` sits after the matched part (which ends in a word
character) iff the rest of the input is empty or starts with a non-word
character. -/
def boundaryAfter (rest : List Char) : Bool :=
  match rest.head? with
  | none => true
  | some c => !isWordChar c

/-- Match a literal pattern (all in lowercase) against the front of the
input, exactly; returns the consumed characters and the rest.  Used for the
patterns that the code applies to already-lowercased text. -/
def takeLit : List Char → List Char → Option (List Char × List Char)
  | [], l => some ([], l)
  | _ :: _, [] => none
  | p :: ps, c :: cs =>
    if c == p then
      match takeLit ps cs with
      | some (m, r) => some (c :: m, r)
      | none => none
    else none

/-- Match a literal pattern (given in lowercase) case-insensitively against
the front of the input; returns the consumed characters (in their original
case) and the rest.  Used for the `/.../i` patterns applied to raw titles. -/
def takeLitCI : List Char → List Char → Option (List Char × List Char)
  | [], l => some ([], l)
  | _ :: _, [] => none
  | p :: ps, c :: cs =>
    if c.toLower == p then
      match takeLitCI ps cs with
      | some (m, r) => some (c :: m, r)
      | none => none
    else none

/-- Match exactly `n` digits (`\d{n}`). -/
def takeDigits (n : ℕ) (l : List Char) : Option (List Char × List Char) :=
  let m := l.take n
  if m.length == n && m.all isDigitChar then some (m, l.drop n) else none

/-- Match `\s+` (greedily; the patterns that follow it can never match a
whitespace character, so greediness here agrees with backtracking). -/
def takeWs1 (l : List Char) : Option (List Char × List Char) :=
  let m := l.takeWhile isWs
  if m.isEmpty then none else some (m, l.dropWhile isWs)

/-- Match `\s*` (greedily, same remark as `takeWs1`); cannot fail. -/
def takeWs0 (l : List Char) : List Char × List Char :=
  (l.takeWhile isWs, l.dropWhile isWs)

/-- Scan the input left to right, trying the position matcher `f` at every
suffix (passing the preceding character for word-boundary tests); the first
success wins, mirroring leftmost regex matching. -/
def scanFrom (f : Option Char → List Char → Option α) : Option Char → List Char → Option α
  | prev, [] => f prev []
  | prev, c :: cs =>
    match f prev (c :: cs) with
    | some a => some a
    | none => scanFrom f (some c) cs

/-- Character preceding the position reached after consuming `l₁`, when the
scan started with preceding character `prev`. -/
def prevAt (prev : Option Char) (l₁ : List Char) : Option Char :=
  match l₁.getLast? with
  | some c => some c
  | none => prev

/-- Substring test: does `pat` occur contiguously anywhere in the input?
Models `/lit/.test(s)` for a literal pattern. -/
def containsSeq (pat : List Char) : List Char → Bool
  | [] => pat.isEmpty
  | c :: cs => pat.isPrefixOf (c :: cs) || containsSeq pat cs

/-- Position matcher for `/\blit\b/` where every character of `lit` is a word
character: the literal with no word character on either side. -/
def wordTestAt (w : List Char) (prev : Option Char) (l : List Char) : Option Unit :=
  if boundaryBefore prev then
    match takeLit w l with
    | some (_, r) => if boundaryAfter r then some () else none
    | none => none
  else none

/-- Test `/\blit\b/` anywhere in the input. -/
def wordTest (w : List Char) (l : List Char) : Bool :=
  (scanFrom (wordTestAt w) none l).isSome

/-- Test `/lit\b/` (word boundary after the literal only) anywhere in the
input; models the `xe\b` alternative of the integrated-graphics pattern. -/
def litThenBoundary (w : List Char) (l : List Char) : Bool :=
  (scanFrom (fun _ r =>
    match takeLit w r with
    | some (_, rest) => if boundaryAfter rest then some () else none
    | none => none) none l).isSome

/-- Position matcher for a literal, `\s*`, a second literal, and then exactly
`n` digits, returning the numeric value of the digits and the rest of the
input.  Instances: `/rtx\s*(\d{4})/` (second literal empty), and with the
leading-boundary wrappers below `/\brx\s*(\d{4})/` and `/\barc\s*a(\d{3})/`. -/
def gpuModelAt (lit₁ lit₂ : List Char) (n : ℕ) (l : List Char) : Option (ℕ × List Char) :=
  match takeLit lit₁ l with
  | some (_, r₁) =>
    match takeLit lit₂ (r₁.dropWhile isWs) with
    | some (_, r₂) =>
      match takeDigits n r₂ with
      | some (d, r₃) => some (digitsToNat d, r₃)
      | none => none
    | none => none
  | none => none

/-- Leftmost match of `/lit₁\s*lit₂(\d{n})/` (no word boundaries). -/
def modelFind (lit₁ lit₂ : List Char) (n : ℕ) (t : List Char) : Option ℕ :=
  scanFrom (fun _ l =>
    match gpuModelAt lit₁ lit₂ n l with
    | some (v, _) => some v
    | none => none) none t

/-- Leftmost match of `/\blit₁\s*lit₂(\d{n})/` (leading word boundary). -/
def modelFindB (lit₁ lit₂ : List Char) (n : ℕ) (t : List Char) : Option ℕ :=
  scanFrom (fun prev l =>
    if boundaryBefore prev then
      match gpuModelAt lit₁ lit₂ n l with
      | some (v, _) => some v
      | none => none
    else none) none t

/-! ## JavaScript numbers -/

/-- Model of a JavaScript number: an exact finite rational, NaN, or one of
the infinities. -/
inductive JSNum where
  | fin (q : ℚ)
  | nan
  | posInf
  | negInf
deriving DecidableEq, Repr

/-- JavaScript `Number.isFinite`. -/
def JSNum.isFinite : JSNum → Bool
  | .fin _ => true
  | _ => false

/-- JavaScript `<=` (false whenever either operand is NaN). -/
def JSNum.le : JSNum → JSNum → Bool
  | .nan, _ => false
  | _, .nan => false
  | .fin a, .fin b => decide (a ≤ b)
  | .negInf, _ => true
  | _, .posInf => true
  | .posInf, _ => false
  | .fin _, .negInf => false

/-- JavaScript `<` (false whenever either operand is NaN). -/
def JSNum.lt : JSNum → JSNum → Bool
  | .nan, _ => false
  | _, .nan => false
  | .fin a, .fin b => decide (a < b)
  | .posInf, _ => false
  | .negInf, .negInf => false
  | .negInf, _ => true
  | .fin _, .posInf => true
  | .fin _, .negInf => false

/-- Rational value of a JavaScript number.  The scoring code only ever reads
the price of a listing that already passed `strictMeetsRequirements`, where
the price is finite, so the junk value for the non-finite cases is never
observable in the pipeline's output. -/
def JSNum.toQ : JSNum → ℚ
  | .fin q => q
  | _ => 0

/-- JavaScript `Math.round`: half-way cases round toward positive infinity. -/
def jsRound (q : ℚ) : ℤ := ⌊q + 1 / 2⌋

/-- Rounding to one decimal place, `Math.round(x * 10) / 10`. -/
def roundTo1 (q : ℚ) : ℚ := (jsRound (q * 10) : ℚ) / 10

/-! ## Number rendering (JavaScript template-string interpolation) -/

/-- Character for a single decimal digit. -/
def digitChar (n : ℕ) : Char := Char.ofNat (48 + n)

/-- Decimal digits of a natural number (fuel-indexed helper). -/
def natToCharsAux : ℕ → ℕ → List Char
  | 0, _ => []
  | fuel + 1, n =>
    if n < 10 then [digitChar n] else natToCharsAux fuel (n / 10) ++ [digitChar (n % 10)]

/-- Decimal digits of a natural number. -/
def natToChars (n : ℕ) : List Char := natToCharsAux (n + 1) n

/-- Decimal rendering of a natural number. -/
def renderNat (n : ℕ) : String := ⟨natToChars n⟩

/-- Decimal rendering of an integer. -/
def renderInt (i : ℤ) : String := if i < 0 then "-" ++ renderNat i.natAbs else renderNat i.natAbs

/-- Rendering of a non-negative rational whose denominator divides a power of
ten, the way JavaScript interpolates the corresponding exactly-representable
number: integer part, then (when not an integer) a point and the fraction
digits with no trailing zeros.  The quantities this program formats (storage
sizes divided by 1024) always have such denominators; other denominators get
a fallback spelling that the program never produces. -/
def renderDec (q : ℚ) : String :=
  if q.den = 1 then renderInt q.num
  else
    match (List.range 13).find? (fun k => 10 ^ k % q.den == 0) with
    | some k =>
      let scaled : ℤ := q.num * ((10 ^ k : ℤ) / (q.den : ℤ))
      let ip : ℤ := scaled / (10 ^ k : ℤ)
      let fp : ℕ := scaled.natAbs % 10 ^ k
      let fdigits := natToChars fp
      renderInt ip ++ "." ++ ⟨List.replicate (k - fdigits.length) '0' ++ fdigits⟩
    | none => renderInt q.num ++ "/" ++ renderNat q.den

/-- Rendering of a JavaScript number in a template string. -/
def JSNum.render : JSNum → String
  | .fin q => renderDec q
  | .nan => "NaN"
  | .posInf => "Infinity"
  | .negInf => "-Infinity"

/-! ## Data model (`src/types/pc.ts`) -/

/-- The budget dropdown options (`BudgetRange` in `pc.ts`): the constructors
model the string values "under700", "700-999", "1000-1499", "1500plus". -/
inductive BudgetRange where
  | under700
  | b700to999
  | b1000to1499
  | b1500plus
deriving DecidableEq, Repr

/-- The storage dropdown options (`StorageTier`): "256-512", "1tb", "2tb",
"any". -/
inductive StorageTier where
  | s256to512
  | s1tb
  | s2tb
  | anyTier
deriving DecidableEq, Repr

/-- The user's form answers (`UserPreferences`). -/
structure UserPreferences where
  budgetRange : BudgetRange
  minSsdStorageTier : StorageTier
deriving DecidableEq, Repr

/-- Storage kind (`"SSD" | "HDD" | "Unknown"`). -/
inductive StorageType where
  | SSD
  | HDD
  | Unknown
deriving DecidableEq, Repr

/-- The string the storage kind interpolates to. -/
def StorageType.render : StorageType → String
  | .SSD => "SSD"
  | .HDD => "HDD"
  | .Unknown => "Unknown"

/-- A PC product (`PcListing`).  Optional fields of the TypeScript interface
are `Option`s; numeric fields that the code checks with `Number.isFinite`
are `JSNum`. -/
structure PcListing where
  id : String
  title : String
  amazonUrl : String
  priceUsd : JSNum
  cpu : String
  gpu : Option String
  ramGb : JSNum
  storageGb : Option ℕ
  storageType : Option StorageType
  color : Option String := none
  imageUrl : Option String := none
deriving DecidableEq, Repr

/-- A scored recommendation (`PcRecommendation`). -/
structure PcRecommendation where
  listing : PcListing
  score : ℚ
  reasons : List String
deriving DecidableEq, Repr

/-- The optional `options` argument of `recommendFromCandidates`; absent
fields (JavaScript `undefined`) are `none`. -/
structure RecOptions where
  limit : Option ℕ := none
  budgetTolerancePct : Option ℚ := none
deriving DecidableEq, Repr

/-! ## `src/lib/rank.ts` -/

/-- Result of `budgetRangeToMinMax`: a dollar interval; `max = none` models
the JavaScript `Infinity` of the "1500plus" case. -/
structure PriceRange where
  min : ℚ
  max : Option ℚ
deriving DecidableEq, Repr

/-- Converts a budget range option into actual dollar amounts
(`budgetRangeToMinMax`). -/
def budgetRangeToMinMax : BudgetRange → PriceRange
  | .under700 => ⟨0, some 700⟩
  | .b700to999 => ⟨700, some 999⟩
  | .b1000to1499 => ⟨1000, some 1499⟩
  | .b1500plus => ⟨1500, none⟩

/-- Converts a storage tier option into the minimum gigabytes required, or
`none` for "any" (`storageTierToMinGb`). -/
def storageTierToMinGb : StorageTier → Option ℕ
  | .s256to512 => some 256
  | .s1tb => some 1024
  | .s2tb => some 2048
  | .anyTier => none

/-- Keeps a number within a range (`clamp(value, min, max)` =
`Math.max(min, Math.min(max, value))`). -/
def clamp (value lo hi : ℚ) : ℚ := max lo (min hi value)

/-- CPU quality tier from the CPU name (`inferCpuTier`), 1–5. -/
def inferCpuTier (cpuText : String) : ℕ :=
  let t := lowerStr cpuText
  if containsSeq "celeron".data t || containsSeq "pentium".data t ||
      containsSeq "athlon".data t then 1
  else if mDigitTest t then
    if containsSeq "max".data t then 5
    else if containsSeq "pro".data t then 4
    else 3
  else if wordTest "i9".data t then 5
  else if wordTest "i7".data t then 4
  else if wordTest "i5".data t then 3
  else if wordTest "i3".data t then 2
  else if litWsCharTest "ryzen".data '9' t then 5
  else if litWsCharTest "ryzen".data '7' t then 4
  else if litWsCharTest "ryzen".data '5' t then 3
  else if litWsCharTest "ryzen".data '3' t then 2
  else 2
where
  /-- Test `/m[1-9]/`: an `m` immediately followed by a digit 1–9. -/
  mDigitTest : List Char → Bool
    | [] => false
    | c :: cs =>
      (c == 'm' && (match cs.head? with
        | some d => 49 ≤ d.toNat && d.toNat ≤ 57
        | none => false)) || mDigitTest cs
  /-- Test `/lit\s*d/` for a literal followed by optional whitespace and one
  fixed (non-whitespace) character, e.g. `/ryzen\s*9/`. -/
  litWsCharTest (lit : List Char) (d : Char) (t : List Char) : Bool :=
    (scanFrom (fun _ l =>
      match takeLit lit l with
      | some (_, r) =>
        match (r.dropWhile isWs).head? with
        | some c => if c == d then some () else none
        | none => none
      | none => none) none t).isSome

/-- GPU tier plus discrete-card flag, the result of `inferGpuTier`. -/
structure GpuInfo where
  tier : ℕ
  isDiscrete : Bool
deriving DecidableEq, Repr

/-- Test of the integrated-graphics keyword set
`/(uhd|iris|xe\b|intel graphics|radeon graphics)/`. -/
def integratedTest (t : List Char) : Bool :=
  containsSeq "uhd".data t || containsSeq "iris".data t || litThenBoundary "xe".data t ||
    containsSeq "intel graphics".data t || containsSeq "radeon graphics".data t

/-- Test of `/\brx\s*\d{4}\b/` (the discrete-RX rescue in the integrated
check). -/
def rxBoundedTest (t : List Char) : Bool :=
  (scanFrom (fun prev l =>
    if boundaryBefore prev then
      match gpuModelAt "rx".data [] 4 l with
      | some (_, r) => if boundaryAfter r then some () else none
      | none => none
    else none) none t).isSome

/-- Test of the brand-keyword fallback `/(rtx|gtx|\brx\b|arc)/`. -/
def gpuBrandTest (t : List Char) : Bool :=
  containsSeq "rtx".data t || containsSeq "gtx".data t || wordTest "rx".data t ||
    containsSeq "arc".data t

/-- GPU quality tier from the GPU name (`inferGpuTier`): 0 for absent or
integrated graphics, 1–5 for discrete cards. -/
def inferGpuTier (gpuText : Option String) : GpuInfo :=
  match gpuText with
  | none => ⟨0, false⟩
  | some s =>
    if s = "" then ⟨0, false⟩
    else
      let t := lowerStr s
      if integratedTest t && !rxBoundedTest t then ⟨0, false⟩
      else
        match modelFind "rtx".data [] 4 t with
        | some model =>
          if 4080 ≤ model then ⟨5, true⟩
          else if 4070 ≤ model then ⟨4, true⟩
          else if 4060 ≤ model then ⟨3, true⟩
          else if 3060 ≤ model then ⟨2, true⟩
          else ⟨1, true⟩
        | none =>
        match modelFind "gtx".data [] 4 t with
        | some model => if 1660 ≤ model then ⟨1, true⟩ else ⟨1, true⟩
        | none =>
        match modelFindB "rx".data [] 4 t with
        | some model =>
          if 7900 ≤ model then ⟨5, true⟩
          else if 7800 ≤ model then ⟨4, true⟩
          else if 7600 ≤ model then ⟨3, true⟩
          else if 6600 ≤ model then ⟨2, true⟩
          else ⟨1, true⟩
        | none =>
        match modelFindB "arc".data ['a'] 3 t with
        | some model =>
          if 770 ≤ model then ⟨3, true⟩
          else if 750 ≤ model then ⟨2, true⟩
          else ⟨1, true⟩
        | none =>
          if gpuBrandTest t then ⟨1, true⟩ else ⟨0, false⟩

/-- RAM score 0–3 from the RAM amount (`inferRamScore`). -/
def inferRamScore (ramGb : JSNum) : ℕ :=
  if JSNum.le (.fin 32) ramGb then 3
  else if JSNum.le (.fin 16) ramGb then 2
  else if JSNum.le (.fin 8) ramGb then 1
  else 0

/-- Result of `strictMeetsRequirements`. -/
structure CheckResult where
  ok : Bool
  reason : Option String := none
deriving DecidableEq, Repr

/-- Checks that a listing has all the required data
(`strictMeetsRequirements`): finite positive price, non-empty URL, non-empty
CPU, finite positive RAM. -/
def strictMeetsRequirements (listing : PcListing) : CheckResult :=
  if !listing.priceUsd.isFinite || JSNum.le listing.priceUsd (.fin 0) then
    ⟨false, some "Missing price"⟩
  else if listing.amazonUrl = "" then ⟨false, some "Missing URL"⟩
  else if listing.cpu = "" then ⟨false, some "Missing CPU"⟩
  else if !listing.ramGb.isFinite || JSNum.le listing.ramGb (.fin 0) then
    ⟨false, some "Missing RAM"⟩
  else ⟨true, none⟩

/-- Widened lower budget bound: `budgetMin === 0 ? 0 : budgetMin * (1 -
tolerancePct)`. -/
def budgetMinTolOf (br : BudgetRange) (tol : ℚ) : ℚ :=
  if (budgetRangeToMinMax br).min = 0 then 0 else (budgetRangeToMinMax br).min * (1 - tol)

/-- Widened upper budget bound: `budgetMax === Infinity ? Infinity :
budgetMax * (1 + tolerancePct)`. -/
def budgetMaxTolOf (br : BudgetRange) (tol : ℚ) : JSNum :=
  match (budgetRangeToMinMax br).max with
  | none => .posInf
  | some m => .fin (m * (1 + tol))

/-- The budget filter `c.priceUsd >= budgetMinTol && c.priceUsd <=
budgetMaxTol`. -/
def budgetPass (br : BudgetRange) (tol : ℚ) (c : PcListing) : Bool :=
  JSNum.le (.fin (budgetMinTolOf br tol)) c.priceUsd &&
    JSNum.le c.priceUsd (budgetMaxTolOf br tol)

/-- The storage filter: no preference passes everything; a falsy
`storageGb` (JavaScript `undefined` or `0`) is never excluded; otherwise
the listing needs `storageGb >= minStorageGb`. -/
def storagePass (tier : StorageTier) (c : PcListing) : Bool :=
  match storageTierToMinGb tier with
  | none => true
  | some minGb =>
    match c.storageGb with
    | none => true
    | some g => if g = 0 then true else decide (minGb ≤ g)

/-- The candidate list after the three filters of `recommendFromCandidates`
(mandatory fields, then budget with the tolerance defaulting to 0.12, then
storage). -/
def eligibleCandidates (candidates : List PcListing) (prefs : UserPreferences)
    (options : RecOptions) : List PcListing :=
  ((candidates.filter fun c => (strictMeetsRequirements c).ok).filter
      (budgetPass prefs.budgetRange (options.budgetTolerancePct.getD (12 / 100)))).filter
    (storagePass prefs.minSsdStorageTier)

/-- Scores one eligible listing and builds its reason strings (the `.map`
body inside `recommendFromCandidates`). -/
def scoreOne (prefs : UserPreferences) (listing : PcListing) : PcRecommendation :=
  let mm := budgetRangeToMinMax prefs.budgetRange
  let cpuTier := inferCpuTier listing.cpu
  let gpuInfo := inferGpuTier listing.gpu
  let ramScore := inferRamScore listing.ramGb
  let perf : ℚ := (0.4 : ℚ) * cpuTier + (0.4 : ℚ) * gpuInfo.tier + (0.2 : ℚ) * ramScore
  let rangeMid : ℚ :=
    match mm.max with
    | none => mm.min * 1.2
    | some mx => (mm.min + mx) / 2
  let budgetFit : ℚ :=
    if rangeMid ≤ 0 then 0
    else 1 - clamp (|listing.priceUsd.toQ - rangeMid| / rangeMid) 0 1
  let score : ℚ := (jsRound ((perf * 20 + budgetFit * 20) * 10) : ℚ) / 10
  let gpuLine : List String :=
    match listing.gpu with
    | some g => if gpuInfo.isDiscrete && g != "" then ["GPU: " ++ g] else []
    | none => []
  let storageLine : List String :=
    match listing.storageGb with
    | none => []
    | some g =>
      if g = 0 then []
      else
        [(if 1024 ≤ g then renderDec ((g : ℚ) / 1024) ++ "TB" else renderNat g ++ "GB") ++
          " " ++
          (match listing.storageType with
           | some st => st.render
           | none => "Storage")]
  { listing := listing
    score := score
    reasons := ["CPU: " ++ listing.cpu] ++ gpuLine ++ [listing.ramGb.render ++ "GB RAM"] ++
      storageLine }

/-- Stable insertion of a recommendation into a list already sorted by
descending score: it goes in front of the first strictly-smaller score, so
equal scores keep first-seen order — exactly the result of JavaScript's
stable `Array.prototype.sort` with comparator `(a, b) => b.score - a.score`. -/
def insertByScore (x : PcRecommendation) : List PcRecommendation → List PcRecommendation
  | [] => [x]
  | y :: ys => if y.score ≤ x.score then x :: y :: ys else y :: insertByScore x ys

/-- Stable sort by descending score (see `insertByScore`). -/
def sortByScoreDesc : List PcRecommendation → List PcRecommendation
  | [] => []
  | x :: xs => insertByScore x (sortByScoreDesc xs)

/-- THE MAIN FUNCTION (`recommendFromCandidates`): filter, score, sort by
descending score, and truncate to the caller's limit (default 5). -/
def recommendFromCandidates (candidates : List PcListing) (prefs : UserPreferences)
    (options : RecOptions := {}) : List PcRecommendation :=
  (sortByScoreDesc ((eligibleCandidates candidates prefs options).map (scoreOne prefs))).take
    (options.limit.getD 5)

/-! ## `src/app/api/recommend/route.ts`: title parsers -/

/-- Try the alternatives of an optional trailing group `(?:alt₁|alt₂)?`
followed by `\b`: each alternative is matched case-insensitively and must be
followed by a word boundary; alternatives are tried in order.  (Regex
backtracking would also retry later alternatives after a boundary failure,
which this models; the alternatives start with distinct letters so at most
one can match at a given position anyway.) -/
def tryAlts (alts : List (List Char)) (r : List Char) : Option (List Char × List Char) :=
  match alts with
  | [] => none
  | a :: rest =>
    match takeLitCI a r with
    | some (m, r') => if boundaryAfter r' then some (m, r') else tryAlts rest r
    | none => tryAlts rest r

/-- Match `(?:\s*(?:alt₁|alt₂))?\b`: optional whitespace and one of the
alternatives followed by a word boundary; if that fails the group matches
empty and the boundary is required at the current position instead (the
backtracking of the optional group). -/
def optGroupB (alts : List (List Char)) (l : List Char) : Option (List Char × List Char) :=
  match tryAlts alts (l.dropWhile isWs) with
  | some (m, r') => some (l.takeWhile isWs ++ m, r')
  | none => if boundaryAfter l then some ([], l) else none

/-- Position matcher for the three brand patterns of `parseGpu`,
`/\b(lit₁\s+lit₂\s*\d{n}(?:\s*(?:alts))?)\b/i`; returns the captured
characters in their original case (a failed sub-match propagates `none`,
written with `Option.bind`). -/
def gpuCaptureAt (lit₁ lit₂ : List Char) (n : ℕ) (alts : List (List Char))
    (prev : Option Char) (l : List Char) : Option (List Char) :=
  if boundaryBefore prev then
    (takeLitCI lit₁ l).bind fun (m₁, r₁) =>
    (takeWs1 r₁).bind fun (w₁, r₂) =>
    (takeLitCI lit₂ r₂).bind fun (m₂, r₃) =>
    (takeDigits n (r₃.dropWhile isWs)).bind fun (d, r₅) =>
    (optGroupB alts r₅).bind fun (sfx, _) =>
    some (m₁ ++ w₁ ++ m₂ ++ r₃.takeWhile isWs ++ d ++ sfx)
  else none

/-- Position matcher for `/\b(Intel\s+Arc\s+A\d{3})\b/i` of `parseGpu`. -/
def arcCaptureAt (prev : Option Char) (l : List Char) : Option (List Char) :=
  if boundaryBefore prev then
    (takeLitCI "intel".data l).bind fun (m₁, r₁) =>
    (takeWs1 r₁).bind fun (w₁, r₂) =>
    (takeLitCI "arc".data r₂).bind fun (m₂, r₃) =>
    (takeWs1 r₃).bind fun (w₂, r₄) =>
    (takeLitCI "a".data r₄).bind fun (m₃, r₅) =>
    (takeDigits 3 r₅).bind fun (d, r₆) =>
    if boundaryAfter r₆ then some (m₁ ++ w₁ ++ m₂ ++ w₂ ++ m₃ ++ d) else none
  else none

/-- Looks for a GPU model in a product title (`parseGpu`): NVIDIA RTX, then
NVIDIA GTX, then AMD Radeon RX, then Intel Arc; the NVIDIA and AMD captures
get a brand prefix. -/
def parseGpu (text : String) : Option String :=
  match scanFrom (gpuCaptureAt "geforce".data "rtx".data 4 ["ti".data, "super".data])
      none text.data with
  | some cap => some ("NVIDIA " ++ (⟨cap⟩ : String))
  | none =>
  match scanFrom (gpuCaptureAt "geforce".data "gtx".data 4 ["super".data]) none text.data with
  | some cap => some ("NVIDIA " ++ (⟨cap⟩ : String))
  | none =>
  match scanFrom (gpuCaptureAt "radeon".data "rx".data 4 ["xt".data]) none text.data with
  | some cap => some ("AMD " ++ (⟨cap⟩ : String))
  | none =>
  match scanFrom arcCaptureAt none text.data with
  | some cap => some (⟨cap⟩ : String)
  | none => none

/-- Position matcher for `/\b(\d+(?:\.\d+)?)\s*TB\b/i` of `parseStorage`:
returns the captured decimal value.  The whole-number part needs a word
boundary in front (digits are word characters); the fraction is taken
greedily, and when the `TB` tail fails after it the regex backtracks to the
fraction-free reading. -/
def tbAt (prev : Option Char) (l : List Char) : Option ℚ :=
  if boundaryBefore prev then
    let d := l.takeWhile isDigitChar
    if d.isEmpty then none
    else
      let r := l.dropWhile isDigitChar
      let withFrac : Option ℚ :=
        match r with
        | '.' :: r₂ =>
          let f := r₂.takeWhile isDigitChar
          if f.isEmpty then none
          else
            tbTail ((digitsToNat d : ℚ) + (digitsToNat f : ℚ) / 10 ^ f.length)
              (r₂.dropWhile isDigitChar)
        | _ => none
      match withFrac with
      | some q => some q
      | none => tbTail (digitsToNat d) r
  else none
where
  /-- The `\s*TB\b` tail. -/
  tbTail (q : ℚ) (rest : List Char) : Option ℚ :=
    match takeLitCI "tb".data (rest.dropWhile isWs) with
    | some (_, r') => if boundaryAfter r' then some q else none
    | none => none

/-- Leftmost match of the TB-size pattern in a title. -/
def tbFind (text : String) : Option ℚ := scanFrom tbAt none text.data

/-- The `\s*GB\b` tail of the gigabyte pattern. -/
def gbTailOk (rest : List Char) : Bool :=
  match takeLitCI "gb".data (rest.dropWhile isWs) with
  | some (_, r') => boundaryAfter r'
  | none => false

/-- Position matcher for `/\b(\d{3,4})\s*GB\b/i` of `parseStorage`: greedy
on the digit count, so four digits are tried before three. -/
def gbAt (prev : Option Char) (l : List Char) : Option ℕ :=
  if boundaryBefore prev then
    match takeDigits 4 l with
    | some (d, r) =>
      if gbTailOk r then some (digitsToNat d)
      else
        match takeDigits 3 l with
        | some (d₃, r₃) => if gbTailOk r₃ then some (digitsToNat d₃) else none
        | none => none
    | none =>
      match takeDigits 3 l with
      | some (d₃, r₃) => if gbTailOk r₃ then some (digitsToNat d₃) else none
      | none => none
  else none

/-- Leftmost match of the GB-size pattern in a title. -/
def gbFind (text : String) : Option ℕ := scanFrom gbAt none text.data

/-- Result of `parseStorage`: `{ gb?: number; type?: ... }`. -/
structure StorageInfo where
  gb : Option ℕ
  type : Option StorageType
deriving DecidableEq, Repr

/-- The storage kind read from the keywords of a title: SSD when it contains
"nvme" or "ssd" (case-insensitively), HDD when it contains whole-word "hdd",
otherwise Unknown. -/
def storageKind (text : String) : StorageType :=
  let lower := lowerStr text
  if containsSeq "nvme".data lower || containsSeq "ssd".data lower then .SSD
  else if wordTest "hdd".data lower then .HDD
  else .Unknown

/-- Looks for storage size and type in a product title (`parseStorage`):
a TB size (converted to GB ×1024, rounded) is tried first, then a 3–4-digit
GB size; without a size match both fields stay absent. -/
def parseStorage (text : String) : StorageInfo :=
  match tbFind text with
  | some v => ⟨some (jsRound (v * 1024)).toNat, some (storageKind text)⟩
  | none =>
    match gbFind text with
    | some g => ⟨some g, some (storageKind text)⟩
    | none => ⟨none, none⟩

/-! ## Concrete fixtures used by witnesses and counterexamples -/

/-- The first mock candidate of `src/lib/mockCandidates.ts` (the listing of
the end-to-end scenario of the spec). -/
def mock1 : PcListing :=
  { id := "mock-1"
    title := "CyberPowerPC Gamer Xtreme VR Gaming PC (Intel Core i5, RTX 4060, 16GB RAM, 1TB NVMe SSD)"
    amazonUrl := "https://www.amazon.com/"
    priceUsd := .fin 1099
    cpu := "Intel Core i5"
    gpu := some "NVIDIA GeForce RTX 4060"
    ramGb := .fin 16
    storageGb := some 1024
    storageType := some .SSD
    color := some "black" }

/-- A listing with a present-but-zero storage size (a value JavaScript
treats as falsy). -/
def zeroStorageListing : PcListing :=
  { id := "z"
    title := "zero"
    amazonUrl := "https://example.com/"
    priceUsd := .fin 100
    cpu := "Intel Core i5"
    gpu := none
    ramGb := .fin 16
    storageGb := some 0
    storageType := some .SSD }

/-- A listing with no price (NaN), used to witness the mandatory-field
claim. -/
def badPriceListing : PcListing :=
  { id := "bad"
    title := "bad"
    amazonUrl := "https://example.com/"
    priceUsd := .nan
    cpu := "Intel Core i5"
    gpu := none
    ramGb := .fin 16
    storageGb := none
    storageType := none }

/-- A fallback recommendation value used to take the head of a concrete
output list in closed witness statements. -/
def dummyRec : PcRecommendation := ⟨zeroStorageListing, 0, []⟩

/-- The recommendation the pipeline produces for `mock1` under the
"700-999" budget (score `70.1`). -/
def mock1Rec : PcRecommendation :=
  ⟨mock1, 701 / 10,
    ["CPU: Intel Core i5", "GPU: NVIDIA GeForce RTX 4060", "16GB RAM", "1TB SSD"]⟩

/-- Midpoint of the un-widened preference interval as the spec words it:
`(min + max) / 2`, or `min × 1.2` when the interval is unbounded above. -/
def rangeMidOf (br : BudgetRange) : ℚ :=
  match (budgetRangeToMinMax br).max with
  | none => (budgetRangeToMinMax br).min * 1.2
  | some mx => ((budgetRangeToMinMax br).min + mx) / 2

/-- A maximal-scoring listing: top CPU and GPU tiers, 32 GB RAM, and a price
sitting exactly on the midpoint of the "700-999" interval. -/
def highEndListing : PcListing :=
  { id := "hi"
    title := "t"
    amazonUrl := "https://example.com/"
    priceUsd := .fin (1699 / 2)
    cpu := "Intel Core i9"
    gpu := some "NVIDIA GeForce RTX 4090"
    ramGb := .fin 32
    storageGb := some 2048
    storageType := some .SSD }

/-- The recommendation the pipeline produces for `highEndListing` (score
112, above 100). -/
def highEndRec : PcRecommendation :=
  ⟨highEndListing, 112,
    ["CPU: Intel Core i9", "GPU: NVIDIA GeForce RTX 4090", "32GB RAM", "2TB SSD"]⟩

/-! ## Shape predicates for parser captures -/

/-- Every character of the list is regex whitespace. -/
def WsList (w : List Char) : Prop := ∀ c ∈ w, isWs c = true

/-- Every character of the list is a digit. -/
def DigitList (d : List Char) : Prop := ∀ c ∈ d, isDigitChar c = true

/-- The decomposition of a successful capture of one of the three
brand patterns of `parseGpu` (`gpuCaptureAt`). -/
def GpuCapShape (lit₁ lit₂ : List Char) (n : ℕ) (alts : List (List Char))
    (cap : List Char) : Prop :=
  ∃ m₁ w₁ m₂ w₂ d sfx,
    cap = m₁ ++ w₁ ++ m₂ ++ w₂ ++ d ++ sfx ∧
    m₁.map Char.toLower = lit₁ ∧ w₁ ≠ [] ∧ WsList w₁ ∧
    m₂.map Char.toLower = lit₂ ∧ WsList w₂ ∧
    d.length = n ∧ DigitList d ∧
    (sfx = [] ∨ ∃ w₃ m₃ alt, sfx = w₃ ++ m₃ ∧ WsList w₃ ∧ alt ∈ alts ∧
      m₃.map Char.toLower = alt)

/-- The decomposition of a successful capture of the Intel-Arc pattern of
`parseGpu` (`arcCaptureAt`). -/
def ArcCapShape (cap : List Char) : Prop :=
  ∃ m₁ w₁ m₂ w₂ m₃ d,
    cap = m₁ ++ w₁ ++ m₂ ++ w₂ ++ m₃ ++ d ∧
    m₁.map Char.toLower = "intel".data ∧ w₁ ≠ [] ∧ WsList w₁ ∧
    m₂.map Char.toLower = "arc".data ∧ w₂ ≠ [] ∧ WsList w₂ ∧
    m₃.map Char.toLower = ['a'] ∧ d.length = 3 ∧ DigitList d

/-! ## Support lemmas: combinators and the scan -/

theorem prevAt_nil (prev : Option Char) : prevAt prev [] = prev := rfl

theorem prevAt_cons (prev : Option Char) (c : Char) (l : List Char) :
    prevAt prev (c :: l) = prevAt (some c) l := by
  cases l with
  | nil => simp [prevAt]
  | cons d t =>
    cases hgl : (d :: t).getLast? with
    | some x => rw [prevAt, prevAt, List.getLast?_cons_cons, hgl]
    | none => exact absurd hgl (by simp)

theorem scanFrom_sound {α : Type} (f : Option Char → List Char → Option α) :
    ∀ (l : List Char) (prev : Option Char) (a : α),
      scanFrom f prev l = some a →
      ∃ l₁ l₂, l = l₁ ++ l₂ ∧ f (prevAt prev l₁) l₂ = some a := by
  intro l
  induction l with
  | nil => exact fun prev a h => ⟨[], [], rfl, h⟩
  | cons c cs ih =>
    intro prev a h
    rw [scanFrom] at h
    cases hf : f prev (c :: cs) with
    | some b =>
      rw [hf] at h
      exact ⟨[], c :: cs, rfl, by rw [prevAt_nil, hf]; exact h⟩
    | none =>
      rw [hf] at h
      obtain ⟨l₁, l₂, heq, hfa⟩ := ih (some c) a h
      exact ⟨c :: l₁, l₂, by rw [heq, List.cons_append], by rwa [prevAt_cons]⟩

theorem scanFrom_isSome {α : Type} (f : Option Char → List Char → Option α) :
    ∀ (l₁ : List Char) (prev : Option Char) (l₂ : List Char),
      (f (prevAt prev l₁) l₂).isSome = true →
      (scanFrom f prev (l₁ ++ l₂)).isSome = true := by
  intro l₁
  induction l₁ with
  | nil =>
    intro prev l₂ h
    rw [prevAt_nil] at h
    cases l₂ with
    | nil => exact h
    | cons c cs =>
      rw [List.nil_append, scanFrom]
      cases hf : f prev (c :: cs) with
      | some b => rfl
      | none => rw [hf] at h; cases h
  | cons c t ih =>
    intro prev l₂ h
    rw [List.cons_append, scanFrom]
    cases hf : f prev (c :: (t ++ l₂)) with
    | some b => rfl
    | none => exact ih (some c) l₂ (by rwa [prevAt_cons] at h)

theorem takeLit_eq : ∀ (pat l m r : List Char),
    takeLit pat l = some (m, r) → m = pat ∧ l = pat ++ r := by
  intro pat
  induction pat with
  | nil =>
    intro l m r h
    rw [takeLit] at h
    injection h with h
    injection h with h₁ h₂
    exact ⟨h₁.symm, by rw [h₂, List.nil_append]⟩
  | cons p ps ih =>
    intro l m r h
    cases l with
    | nil => rw [takeLit] at h; cases h
    | cons c cs =>
      rw [takeLit] at h
      split at h
      case isTrue hc =>
        cases htl : takeLit ps cs with
        | some mr =>
          obtain ⟨m', r'⟩ := mr
          rw [htl] at h
          injection h with h
          injection h with h₁ h₂
          obtain ⟨hm, hl⟩ := ih cs m' r' htl
          have hcp : c = p := by simpa using hc
          subst hcp
          exact ⟨by rw [← h₁, hm], by rw [hl, h₂]; rfl⟩
        | none => rw [htl] at h; cases h
      case isFalse => cases h

theorem takeLitCI_eq : ∀ (pat l m r : List Char),
    takeLitCI pat l = some (m, r) →
      l = m ++ r ∧ m.map Char.toLower = pat := by
  intro pat
  induction pat with
  | nil =>
    intro l m r h
    rw [takeLitCI] at h
    injection h with h
    injection h with h₁ h₂
    exact ⟨by rw [← h₁, h₂, List.nil_append], by rw [← h₁]; rfl⟩
  | cons p ps ih =>
    intro l m r h
    cases l with
    | nil => rw [takeLitCI] at h; cases h
    | cons c cs =>
      rw [takeLitCI] at h
      split at h
      case isTrue hc =>
        cases htl : takeLitCI ps cs with
        | some mr =>
          obtain ⟨m', r'⟩ := mr
          rw [htl] at h
          injection h with h
          injection h with h₁ h₂
          obtain ⟨hl, hm⟩ := ih cs m' r' htl
          have hcp : c.toLower = p := by simpa using hc
          refine ⟨?_, ?_⟩
          · rw [← h₁, List.cons_append, ← h₂, hl]
          · rw [← h₁, List.map_cons, hm, hcp]
        | none => rw [htl] at h; cases h
      case isFalse => cases h

theorem takeDigits_eq {n : ℕ} {l m r : List Char} (h : takeDigits n l = some (m, r)) :
    l = m ++ r ∧ m.length = n ∧ ∀ c ∈ m, isDigitChar c = true := by
  rw [takeDigits] at h
  split at h
  case isTrue hc =>
    injection h with h
    injection h with h₁ h₂
    simp only [Bool.and_eq_true, beq_iff_eq, List.all_eq_true] at hc
    subst h₁; subst h₂
    exact ⟨(List.take_append_drop n l).symm, hc.1, hc.2⟩
  case isFalse => cases h

theorem takeWs1_eq {l m r : List Char} (h : takeWs1 l = some (m, r)) :
    l = m ++ r ∧ m ≠ [] ∧ ∀ c ∈ m, isWs c = true := by
  rw [takeWs1] at h
  split at h
  case isTrue => cases h
  case isFalse hc =>
    injection h with h
    injection h with h₁ h₂
    subst h₁; subst h₂
    refine ⟨(List.takeWhile_append_dropWhile _ _).symm, ?_, fun c hc => List.mem_takeWhile_imp hc⟩
    simpa using hc

theorem containsSeq_iff (pat : List Char) : ∀ (l : List Char),
    containsSeq pat l = true ↔ pat <:+: l := by
  intro l
  induction l with
  | nil =>
    rw [containsSeq]
    simp [List.isEmpty_iff, List.infix_nil]
  | cons c cs ih =>
    rw [containsSeq]
    rw [Bool.or_eq_true, List.isPrefixOf_iff_prefix, ih, List.infix_cons_iff]

/-! ## Support lemmas: adjacent-pair reasoning for substring refutation -/

theorem pair_of_infix_cons {a b : Char} {rest l : List Char}
    (h : (a :: b :: rest) <:+: l) : [a, b] <:+: l := by
  obtain ⟨s, t, hst⟩ := h
  exact ⟨s, rest ++ t, by rw [← hst]; simp⟩

theorem pair_split {a b : Char} : ∀ {l₁ l₂ : List Char}, [a, b] <:+: l₁ ++ l₂ →
    [a, b] <:+: l₁ ∨ [a, b] <:+: l₂ ∨ (l₁.getLast? = some a ∧ l₂.head? = some b) := by
  intro l₁
  induction l₁ with
  | nil => exact fun h => Or.inr (Or.inl (by simpa using h))
  | cons c t ih =>
    intro l₂ h
    rw [List.cons_append, List.infix_cons_iff] at h
    rcases h with hp | hi
    · rw [List.cons_prefix_cons] at hp
      obtain ⟨hac, hp⟩ := hp
      cases t with
      | nil =>
        obtain ⟨t', ht'⟩ := hp
        refine Or.inr (Or.inr ⟨by simp [hac], ?_⟩)
        rw [List.nil_append] at ht'
        rw [← ht']
        rfl
      | cons d t' =>
        rw [List.cons_append, List.cons_prefix_cons] at hp
        obtain ⟨hbd, -⟩ := hp
        exact Or.inl ⟨[], t', by rw [hac, hbd]; rfl⟩
    · rcases ih hi with h1 | h2 | ⟨hl, hr⟩
      · exact Or.inl (List.infix_cons_iff.mpr (Or.inr h1))
      · exact Or.inr (Or.inl h2)
      · refine Or.inr (Or.inr ⟨?_, hr⟩)
        cases t with
        | nil => simp [List.getLast?] at hl
        | cons d t' => rw [List.getLast?_cons_cons]; exact hl

theorem noPair_append {a b : Char} {l₁ l₂ : List Char}
    (h₁ : ¬ [a, b] <:+: l₁) (h₂ : ¬ [a, b] <:+: l₂)
    (h₃ : l₁.getLast? = some a → l₂.head? ≠ some b) :
    ¬ [a, b] <:+: l₁ ++ l₂ := by
  intro h
  rcases pair_split h with h | h | ⟨x, y⟩
  exacts [h₁ h, h₂ h, h₃ x y]

theorem noPair_of_containsSeq {a b : Char} {l : List Char}
    (h : containsSeq [a, b] l = false) : ¬ [a, b] <:+: l := by
  intro hin
  rw [← containsSeq_iff, h] at hin
  cases hin

theorem ne_of_cls {p : Char → Bool} {c d : Char} (hc : p c = true) (hd : p d = false) :
    c ≠ d := fun h => by rw [h, hd] at hc; cases hc

theorem noPair_of_all_ne_left {a b : Char} {l : List Char} (h : ∀ c ∈ l, c ≠ a) :
    ¬ [a, b] <:+: l := fun hin => h a (hin.subset (by simp)) rfl

theorem noPair_of_all_ne_right {a b : Char} {l : List Char} (h : ∀ c ∈ l, c ≠ b) :
    ¬ [a, b] <:+: l := fun hin => h b (hin.subset (by simp)) rfl

theorem getLast?_ne_of_all {a : Char} {l : List Char} (h : ∀ c ∈ l, c ≠ a) :
    l.getLast? ≠ some a := fun he => h a (List.mem_of_mem_getLast? he) rfl

theorem head?_ne_of_all {b : Char} {l : List Char} (h : ∀ c ∈ l, c ≠ b) :
    l.head? ≠ some b := fun he => h b (List.mem_of_mem_head? he) rfl

theorem not_mem_of_all_ne {x : Char} {l : List Char} (h : ∀ c ∈ l, c ≠ x) : x ∉ l :=
  fun hx => h x hx rfl

theorem containsSeq_false_of_not_mem {pat l : List Char} {x : Char} (hx : x ∈ pat)
    (h : x ∉ l) : containsSeq pat l = false := by
  cases hc : containsSeq pat l with
  | false => rfl
  | true => exact absurd (((containsSeq_iff pat l).mp hc).subset hx) h

/-! ## Support lemmas: the stable sort -/

theorem insertByScore_perm (x : PcRecommendation) (l : List PcRecommendation) :
    (insertByScore x l).Perm (x :: l) := by
  induction l with
  | nil => exact .refl _
  | cons y ys ih =>
    rw [insertByScore]
    split
    · exact .refl _
    · exact (ih.cons y).trans (List.Perm.swap x y ys)

theorem sortByScoreDesc_perm (l : List PcRecommendation) : (sortByScoreDesc l).Perm l := by
  induction l with
  | nil => exact .refl _
  | cons x xs ih => exact (insertByScore_perm x (sortByScoreDesc xs)).trans (ih.cons x)

theorem insertByScore_pairwise {x : PcRecommendation} {l : List PcRecommendation}
    (h : List.Pairwise (fun a b => b.score ≤ a.score) l) :
    List.Pairwise (fun a b => b.score ≤ a.score) (insertByScore x l) := by
  induction l with
  | nil => simp [insertByScore]
  | cons y ys ih =>
    rw [List.pairwise_cons] at h
    rw [insertByScore]
    split
    case isTrue hle =>
      rw [List.pairwise_cons]
      refine ⟨?_, List.pairwise_cons.mpr h⟩
      intro z hz
      rcases List.mem_cons.mp hz with rfl | hz
      · exact hle
      · exact le_trans (h.1 z hz) hle
    case isFalse hgt =>
      rw [List.pairwise_cons]
      refine ⟨?_, ih h.2⟩
      intro z hz
      rcases List.mem_cons.mp ((insertByScore_perm x ys).mem_iff.mp hz) with rfl | hz
      · exact le_of_lt (lt_of_not_le hgt)
      · exact h.1 z hz

theorem sortByScoreDesc_pairwise (l : List PcRecommendation) :
    List.Pairwise (fun a b => b.score ≤ a.score) (sortByScoreDesc l) := by
  induction l with
  | nil => exact .nil
  | cons x xs ih => exact insertByScore_pairwise ih

/-! ## Support lemmas: membership in the pipeline output -/

theorem scoreOne_listing (prefs : UserPreferences) (c : PcListing) :
    (scoreOne prefs c).listing = c := rfl

theorem mem_recommend {cands : List PcListing} {prefs : UserPreferences}
    {opts : RecOptions} {rec : PcRecommendation}
    (h : rec ∈ recommendFromCandidates cands prefs opts) :
    ∃ c ∈ eligibleCandidates cands prefs opts, rec = scoreOne prefs c := by
  rw [recommendFromCandidates] at h
  have h1 := List.mem_of_mem_take h
  have h2 := (sortByScoreDesc_perm _).mem_iff.mp h1
  obtain ⟨c, hc, hrec⟩ := List.mem_map.mp h2
  exact ⟨c, hc, hrec.symm⟩

theorem eligible_facts {c : PcListing} {cands : List PcListing} {prefs : UserPreferences}
    {opts : RecOptions} (h : c ∈ eligibleCandidates cands prefs opts) :
    c ∈ cands ∧ (strictMeetsRequirements c).ok = true ∧
      budgetPass prefs.budgetRange (opts.budgetTolerancePct.getD (12 / 100)) c = true ∧
      storagePass prefs.minSsdStorageTier c = true := by
  rw [eligibleCandidates] at h
  simp only [List.mem_filter] at h
  exact ⟨h.1.1.1, h.1.1.2, h.1.2, h.2⟩

/-! ## Strict-check characterisation -/

theorem strict_ok_iff (l : PcListing) :
    (strictMeetsRequirements l).ok = true ↔
      ((!l.priceUsd.isFinite || JSNum.le l.priceUsd (.fin 0)) = false ∧ l.amazonUrl ≠ "" ∧
        l.cpu ≠ "" ∧ (!l.ramGb.isFinite || JSNum.le l.ramGb (.fin 0)) = false) := by
  rw [strictMeetsRequirements]
  by_cases h1 : (!l.priceUsd.isFinite || JSNum.le l.priceUsd (.fin 0)) = true
  · rw [if_pos h1]; simp [h1]
  · rw [if_neg h1]
    by_cases h2 : l.amazonUrl = ""
    · rw [if_pos h2]; simp [h2]
    · rw [if_neg h2]
      by_cases h3 : l.cpu = ""
      · rw [if_pos h3]; simp [h2, h3]
      · rw [if_neg h3]
        by_cases h4 : (!l.ramGb.isFinite || JSNum.le l.ramGb (.fin 0)) = true
        · rw [if_pos h4]; simp [h4]
        · rw [if_neg h4]
          simp only [Bool.not_eq_true] at h1 h4
          simp [h1, h2, h3, h4]

/-- Bridge between the code's rejection condition on a numeric field and the
specification's "finite positive number". -/
theorem jsnum_finite_pos_iff (p : JSNum) :
    (!p.isFinite || JSNum.le p (.fin 0)) = false ↔
      (p.isFinite = true ∧ JSNum.lt (.fin 0) p = true) := by
  cases p <;> simp [JSNum.isFinite, JSNum.le, JSNum.lt]

/-- Under a passing strict check the price is a finite rational. -/
theorem price_fin_of_strict_ok {l : PcListing} (h : (strictMeetsRequirements l).ok = true) :
    ∃ q : ℚ, l.priceUsd = .fin q ∧ 0 < q := by
  have h1 := ((strict_ok_iff l).mp h).1
  rw [jsnum_finite_pos_iff] at h1
  cases hp : l.priceUsd with
  | fin q =>
    refine ⟨q, rfl, ?_⟩
    have := h1.2
    rw [hp] at this
    simpa [JSNum.lt] using this
  | nan => rw [hp] at h1; simp [JSNum.isFinite] at h1
  | posInf => rw [hp] at h1; simp [JSNum.isFinite] at h1
  | negInf => rw [hp] at h1; simp [JSNum.isFinite] at h1

/-! ## Claim C1: listings with missing mandatory data are never recommended -/

/-- C1: for every candidate listing whose price is not a finite positive
number, or whose URL is empty, or whose CPU label is empty, or whose RAM is
not a finite positive number, `strictMeetsRequirements` returns `ok = false`,
and `recommendFromCandidates` never includes that listing in its output, for
any candidate list, preferences and options. -/
theorem invalid_listing_never_recommended (l : PcListing)
    (hbad : ¬(l.priceUsd.isFinite = true ∧ JSNum.lt (.fin 0) l.priceUsd = true) ∨
      l.amazonUrl = "" ∨ l.cpu = "" ∨
      ¬(l.ramGb.isFinite = true ∧ JSNum.lt (.fin 0) l.ramGb = true)) :
    (strictMeetsRequirements l).ok = false ∧
      ∀ (candidates : List PcListing) (prefs : UserPreferences) (options : RecOptions)
        (rec : PcRecommendation), rec ∈ recommendFromCandidates candidates prefs options →
          rec.listing ≠ l := by
  have hfail : (strictMeetsRequirements l).ok = false := by
    cases hok : (strictMeetsRequirements l).ok with
    | false => rfl
    | true =>
      obtain ⟨h1, h2, h3, h4⟩ := (strict_ok_iff l).mp hok
      rw [jsnum_finite_pos_iff] at h1 h4
      rcases hbad with hb | hb | hb | hb
      exacts [absurd h1 hb, absurd hb h2, absurd hb h3, absurd h4 hb]
  refine ⟨hfail, ?_⟩
  intro cands prefs opts rec hrec heq
  obtain ⟨c, hc, hrc⟩ := mem_recommend hrec
  have hok := (eligible_facts hc).2.1
  rw [hrc, scoreOne_listing] at heq
  rw [heq, hfail] at hok
  cases hok

unseal Rat.mul Rat.add Rat.inv Rat.sub Rat.ofScientific in
/-- Witness for C1 at a concrete NaN-priced listing inside a concrete
pipeline run (whose output is the single recommendation for `mock1`). -/
theorem invalid_listing_never_recommended_witness :
    (strictMeetsRequirements badPriceListing).ok = false ∧
      mock1Rec.listing ≠ badPriceListing :=
  ⟨(invalid_listing_never_recommended badPriceListing (by decide)).1,
    (invalid_listing_never_recommended badPriceListing (by decide)).2
      [badPriceListing, mock1] ⟨.b700to999, .s1tb⟩ {} mock1Rec
      ((by decide : recommendFromCandidates [badPriceListing, mock1] ⟨.b700to999, .s1tb⟩ {} =
          [mock1Rec]).symm ▸ List.mem_cons_self mock1Rec [])⟩

/-! ## Claim C3: the budget filter is the widened interval, inclusively -/

/-- C3: for every listing that passes the mandatory-field check, every budget
range and every tolerance fraction, the budget filter accepts the listing iff
its price lies in the widened interval: lower end `min × (1 − tol)` (0 when
`min` is 0), upper end `max × (1 + tol)` (no constraint when `max` is
unbounded), both ends inclusive. -/
theorem budget_filter_iff_widened (l : PcListing) (br : BudgetRange) (tol : ℚ)
    (hok : (strictMeetsRequirements l).ok = true) :
    budgetPass br tol l = true ↔
      ((if (budgetRangeToMinMax br).min = 0 then 0
        else (budgetRangeToMinMax br).min * (1 - tol)) ≤ l.priceUsd.toQ ∧
        (match (budgetRangeToMinMax br).max with
         | none => True
         | some mx => l.priceUsd.toQ ≤ mx * (1 + tol))) := by
  obtain ⟨q, hq, -⟩ := price_fin_of_strict_ok hok
  rw [budgetPass, budgetMinTolOf, budgetMaxTolOf, hq]
  cases hmx : (budgetRangeToMinMax br).max with
  | none => simp [JSNum.le, JSNum.toQ, hq]
  | some mx => simp [JSNum.le, JSNum.toQ, hq]

/-- Witness for C3 at the concrete mock listing, the "700-999" range and the
default tolerance. -/
theorem budget_filter_iff_widened_witness :
    budgetPass .b700to999 (12 / 100) mock1 = true ↔
      ((if (budgetRangeToMinMax .b700to999).min = 0 then 0
        else (budgetRangeToMinMax .b700to999).min * (1 - 12 / 100)) ≤ mock1.priceUsd.toQ ∧
        (match (budgetRangeToMinMax .b700to999).max with
         | none => True
         | some mx => mock1.priceUsd.toQ ≤ mx * (1 + 12 / 100))) :=
  budget_filter_iff_widened mock1 .b700to999 (12 / 100) (by decide)

/-! ## Claim C4 (corrected): the storage filter and falsy storage sizes -/

/-- Counterexample to C4 as stated: `zeroStorageListing` has a present
storage size (`some 0`) and the "256-512" tier has the minimum 256, so the
claim's both-present case demands `pass ↔ 256 ≤ 0`, yet the code passes the
listing (JavaScript treats the storage size 0 as falsy, i.e. as missing). -/
theorem storage_filter_zero_counterexample :
    storageTierToMinGb .s256to512 = some 256 ∧
      zeroStorageListing.storageGb = some 0 ∧
      ¬ (storagePass .s256to512 zeroStorageListing = true ↔ (256 : ℕ) ≤ 0) := by
  refine ⟨rfl, rfl, ?_⟩
  decide

/-- C4 as amended: the storage filter passes every listing when the tier has
no minimum; passes listings with an unknown (`none`) storage size; also
passes listings whose present storage size is 0 (falsy in JavaScript); and
for a present non-zero size it passes exactly when the size reaches the
minimum. -/
theorem storage_filter_cases (tier : StorageTier) (l : PcListing) :
    (storageTierToMinGb tier = none → storagePass tier l = true) ∧
    (l.storageGb = none → storagePass tier l = true) ∧
    (l.storageGb = some 0 → storagePass tier l = true) ∧
    (∀ m g, storageTierToMinGb tier = some m → l.storageGb = some g → g ≠ 0 →
      (storagePass tier l = true ↔ m ≤ g)) := by
  refine ⟨?_, ?_, ?_, ?_⟩
  · intro h; rw [storagePass, h]
  · intro h
    rw [storagePass]
    cases storageTierToMinGb tier with
    | none => rfl
    | some m => rw [h]
  · intro h
    rw [storagePass]
    cases storageTierToMinGb tier with
    | none => rfl
    | some m => rw [h]; simp
  · intro m g hm hg hg0
    rw [storagePass, hm, hg]
    simp [hg0]

/-- Witness for C4 (amended) at a concrete tier and listing (minimum 1024,
size 1024). -/
theorem storage_filter_cases_witness :
    storageTierToMinGb .s1tb = some 1024 ∧ mock1.storageGb = some 1024 ∧
      (storagePass .s1tb mock1 = true ↔ 1024 ≤ 1024) :=
  ⟨rfl, rfl, (storage_filter_cases .s1tb mock1).2.2.2 1024 1024 rfl rfl (by decide)⟩

/-! ## Claim C6: descending order, limit, and eligibility bound -/

/-- C6: in the output of `recommendFromCandidates` a strictly greater score
always comes before a strictly smaller one (the list is pairwise
non-increasing in score), the output length is at most the caller's limit
(default 5), and at most the number of listings surviving all three
filters. -/
theorem ranking_sorted_and_bounded (cands : List PcListing) (prefs : UserPreferences)
    (opts : RecOptions) :
    List.Pairwise (fun a b => b.score ≤ a.score) (recommendFromCandidates cands prefs opts) ∧
      (recommendFromCandidates cands prefs opts).length ≤ opts.limit.getD 5 ∧
      (recommendFromCandidates cands prefs opts).length ≤
        (eligibleCandidates cands prefs opts).length := by
  refine ⟨?_, ?_, ?_⟩
  · exact List.Pairwise.sublist (List.take_sublist _ _) (sortByScoreDesc_pairwise _)
  · rw [recommendFromCandidates, List.length_take]
    exact min_le_left _ _
  · rw [recommendFromCandidates, List.length_take]
    refine le_trans (min_le_right _ _) ?_
    rw [(sortByScoreDesc_perm _).length_eq, List.length_map]

/-! ## Claim C7: the two enum-to-number mappings are exact -/

/-- C7: `budgetRangeToMinMax` maps "under700" to [0, 700], "700-999" to
[700, 999], "1000-1499" to [1000, 1499] and "1500plus" to [1500, ∞), and
`storageTierToMinGb` maps "256-512" to 256 GB, "1tb" to 1024 GB, "2tb" to
2048 GB and "any" to no minimum — exactly, on every value of the two
enumerated types (the eight cases below are exhaustive). -/
theorem budget_and_storage_mappings_exact :
    budgetRangeToMinMax .under700 = ⟨0, some 700⟩ ∧
    budgetRangeToMinMax .b700to999 = ⟨700, some 999⟩ ∧
    budgetRangeToMinMax .b1000to1499 = ⟨1000, some 1499⟩ ∧
    budgetRangeToMinMax .b1500plus = ⟨1500, none⟩ ∧
    storageTierToMinGb .s256to512 = some 256 ∧
    storageTierToMinGb .s1tb = some 1024 ∧
    storageTierToMinGb .s2tb = some 2048 ∧
    storageTierToMinGb .anyTier = none := by
  exact ⟨rfl, rfl, rfl, rfl, rfl, rfl, rfl, rfl⟩

/-! ## Claim C5: the composite score formula -/

theorem scoreOne_score (prefs : UserPreferences) (c : PcListing) :
    (scoreOne prefs c).score =
      roundTo1 (((0.4 : ℚ) * inferCpuTier c.cpu + (0.4 : ℚ) * (inferGpuTier c.gpu).tier +
          (0.2 : ℚ) * inferRamScore c.ramGb) * 20 +
        (if rangeMidOf prefs.budgetRange ≤ 0 then 0
         else 1 - clamp (|c.priceUsd.toQ - rangeMidOf prefs.budgetRange| /
             rangeMidOf prefs.budgetRange) 0 1) * 20) := by
  rw [scoreOne, roundTo1, rangeMidOf]

/-- C5: every recommendation in the output carries the score
round-to-one-decimal of `(performance × 20 + budgetFit × 20)`, with
`performance = 0.4·cpuTier + 0.4·gpuTier + 0.2·ramScore`, the midpoint of
the un-widened interval (or `min × 1.2` when unbounded), and
`budgetFit = 1 − clamp(|price − mid| / mid, 0, 1)` (0 when `mid ≤ 0`). -/
theorem score_formula (cands : List PcListing) (prefs : UserPreferences) (opts : RecOptions)
    (rec : PcRecommendation) (h : rec ∈ recommendFromCandidates cands prefs opts) :
    rec.score =
      roundTo1 (((0.4 : ℚ) * inferCpuTier rec.listing.cpu +
          (0.4 : ℚ) * (inferGpuTier rec.listing.gpu).tier +
          (0.2 : ℚ) * inferRamScore rec.listing.ramGb) * 20 +
        (if rangeMidOf prefs.budgetRange ≤ 0 then 0
         else 1 - clamp (|rec.listing.priceUsd.toQ - rangeMidOf prefs.budgetRange| /
             rangeMidOf prefs.budgetRange) 0 1) * 20) := by
  obtain ⟨c, hc, rfl⟩ := mem_recommend h
  rw [scoreOne_listing]
  exact scoreOne_score prefs c

unseal Rat.mul Rat.add Rat.inv Rat.sub Rat.ofScientific in
/-- Witness for C5 at the concrete mock pipeline run. -/
theorem score_formula_witness :
    mock1Rec.score =
      roundTo1 (((0.4 : ℚ) * inferCpuTier mock1Rec.listing.cpu +
          (0.4 : ℚ) * (inferGpuTier mock1Rec.listing.gpu).tier +
          (0.2 : ℚ) * inferRamScore mock1Rec.listing.ramGb) * 20 +
        (if rangeMidOf BudgetRange.b700to999 ≤ 0 then 0
         else 1 - clamp (|mock1Rec.listing.priceUsd.toQ - rangeMidOf BudgetRange.b700to999| /
             rangeMidOf BudgetRange.b700to999) 0 1) * 20) :=
  score_formula [badPriceListing, mock1] ⟨.b700to999, .s1tb⟩ {} mock1Rec
    ((by decide : recommendFromCandidates [badPriceListing, mock1] ⟨.b700to999, .s1tb⟩ {} =
        [mock1Rec]).symm ▸ List.mem_cons_self mock1Rec [])

/-! ## Claim C10: score bounds -/

theorem inferCpuTier_bounds (s : String) : 1 ≤ inferCpuTier s ∧ inferCpuTier s ≤ 5 := by
  rw [inferCpuTier]
  repeat' split
  all_goals omega

theorem inferGpuTier_tier_le (g : Option String) : (inferGpuTier g).tier ≤ 5 := by
  cases g with
  | none => decide
  | some s =>
    simp only [inferGpuTier]
    repeat' split
    all_goals decide

theorem inferRamScore_le (r : JSNum) : inferRamScore r ≤ 3 := by
  rw [inferRamScore]
  repeat' split
  all_goals decide

theorem clamp01_bounds (v : ℚ) : 0 ≤ clamp v 0 1 ∧ clamp v 0 1 ≤ 1 := by
  rw [clamp]
  exact ⟨le_max_left _ _, max_le (by norm_num) (min_le_left _ _)⟩

theorem roundTo1_bounds {x : ℚ} (h8 : 8 ≤ x) (h112 : x ≤ 112) :
    8 ≤ roundTo1 x ∧ roundTo1 x ≤ 112 := by
  rw [roundTo1, jsRound]
  constructor
  · rw [le_div_iff₀ (by norm_num : (0 : ℚ) < 10)]
    have h : (80 : ℤ) ≤ ⌊x * 10 + 1 / 2⌋ := by
      apply Int.le_floor.mpr
      push_cast
      linarith
    calc (8 : ℚ) * 10 = ((80 : ℤ) : ℚ) := by norm_num
    _ ≤ (⌊x * 10 + 1 / 2⌋ : ℚ) := by exact_mod_cast h
  · rw [div_le_iff₀ (by norm_num : (0 : ℚ) < 10)]
    have h : ⌊x * 10 + 1 / 2⌋ < 1121 := by
      apply Int.floor_lt.mpr
      push_cast
      linarith
    have h' : ⌊x * 10 + 1 / 2⌋ ≤ 1120 := by omega
    calc (⌊x * 10 + 1 / 2⌋ : ℚ) ≤ ((1120 : ℤ) : ℚ) := by exact_mod_cast h'
    _ ≤ 112 * 10 := by norm_num

unseal Rat.mul Rat.add Rat.inv Rat.sub Rat.ofScientific in
/-- C10: every recommendation's score lies between 8 and 112 inclusive (the
CPU tier is never below 1, so the score never drops below 0.4×1×20 = 8; the
ceiling 4.6×20 + 20 = 112 is attained), and in particular the score can
exceed 100, as a concrete pipeline run shows. -/
theorem score_in_range :
    (∀ (cands : List PcListing) (prefs : UserPreferences) (opts : RecOptions)
      (rec : PcRecommendation), rec ∈ recommendFromCandidates cands prefs opts →
        8 ≤ rec.score ∧ rec.score ≤ 112) ∧
    (∃ (cands : List PcListing) (prefs : UserPreferences) (opts : RecOptions)
      (rec : PcRecommendation), rec ∈ recommendFromCandidates cands prefs opts ∧
        100 < rec.score) := by
  constructor
  · intro cands prefs opts rec h
    obtain ⟨c, hc, rfl⟩ := mem_recommend h
    rw [scoreOne_score]
    have hcpu := inferCpuTier_bounds c.cpu
    have hgpu := inferGpuTier_tier_le c.gpu
    have hram := inferRamScore_le c.ramGb
    have hcpu1 : (1 : ℚ) ≤ (inferCpuTier c.cpu : ℚ) := by exact_mod_cast hcpu.1
    have hcpu5 : (inferCpuTier c.cpu : ℚ) ≤ 5 := by exact_mod_cast hcpu.2
    have hgpu0 : (0 : ℚ) ≤ (inferGpuTier c.gpu).tier := by positivity
    have hgpu5 : ((inferGpuTier c.gpu).tier : ℚ) ≤ 5 := by exact_mod_cast hgpu
    have hram0 : (0 : ℚ) ≤ (inferRamScore c.ramGb : ℚ) := by positivity
    have hram3 : (inferRamScore c.ramGb : ℚ) ≤ 3 := by exact_mod_cast hram
    have hfit : (0 : ℚ) ≤
        (if rangeMidOf prefs.budgetRange ≤ 0 then 0
         else 1 - clamp (|c.priceUsd.toQ - rangeMidOf prefs.budgetRange| /
             rangeMidOf prefs.budgetRange) 0 1) ∧
        (if rangeMidOf prefs.budgetRange ≤ 0 then 0
         else 1 - clamp (|c.priceUsd.toQ - rangeMidOf prefs.budgetRange| /
             rangeMidOf prefs.budgetRange) 0 1) ≤ (1 : ℚ) := by
      split
      · norm_num
      · have := clamp01_bounds (|c.priceUsd.toQ - rangeMidOf prefs.budgetRange| /
          rangeMidOf prefs.budgetRange)
        constructor <;> linarith [this.1, this.2]
    apply roundTo1_bounds
    · nlinarith [hfit.1]
    · nlinarith [hfit.2]
  · refine ⟨[highEndListing], ⟨.b700to999, .anyTier⟩, {}, highEndRec, ?_, by decide⟩
    exact (by decide : recommendFromCandidates [highEndListing] ⟨.b700to999, .anyTier⟩ {} =
        [highEndRec]).symm ▸ List.mem_cons_self highEndRec []

unseal Rat.mul Rat.add Rat.inv Rat.sub Rat.ofScientific in
/-- Witness for C10's universally quantified part at a concrete output
recommendation. -/
theorem score_in_range_witness : 8 ≤ mock1Rec.score ∧ mock1Rec.score ≤ 112 :=
  score_in_range.1 [badPriceListing, mock1] ⟨.b700to999, .s1tb⟩ {} mock1Rec
    ((by decide : recommendFromCandidates [badPriceListing, mock1] ⟨.b700to999, .s1tb⟩ {} =
        [mock1Rec]).symm ▸ List.mem_cons_self mock1Rec [])

/-! ## Claim C2: the end-to-end scenario -/

/-- Scoring ignores the storage preference: it only reads the budget
range. -/
theorem scoreOne_congr_storageTier (b : BudgetRange) (t t' : StorageTier) (c : PcListing) :
    scoreOne ⟨b, t⟩ c = scoreOne ⟨b, t'⟩ c := rfl

unseal Rat.mul Rat.add Rat.inv Rat.sub Rat.ofScientific in
/-- C2: for the mock listing (Intel Core i5, RTX 4060, 16 GB, 1 TB SSD,
price 1099) under the "700-999" budget with tolerance 0.12 and any storage
tier satisfied by 1024 GB: the widened maximum is 999 × 1.12 = 1118.88, the
listing passes the budget filter, its CPU tier is 3, GPU tier 3, RAM score
2, performance 2.8, and the output is exactly its recommendation with the
four reason strings in order. -/
theorem end_to_end_scenario (tier : StorageTier)
    (htier : storageTierToMinGb tier = none ∨
      ∃ m, storageTierToMinGb tier = some m ∧ m ≤ 1024) :
    budgetMaxTolOf .b700to999 (12 / 100) = .fin 1118.88 ∧
    budgetPass .b700to999 (12 / 100) mock1 = true ∧
    inferCpuTier mock1.cpu = 3 ∧
    (inferGpuTier mock1.gpu).tier = 3 ∧
    inferRamScore mock1.ramGb = 2 ∧
    (0.4 : ℚ) * inferCpuTier mock1.cpu + (0.4 : ℚ) * (inferGpuTier mock1.gpu).tier +
      (0.2 : ℚ) * inferRamScore mock1.ramGb = 2.8 ∧
    recommendFromCandidates [mock1] ⟨.b700to999, tier⟩ ⟨none, some (12 / 100)⟩ = [mock1Rec] ∧
    mock1Rec.reasons =
      ["CPU: Intel Core i5", "GPU: NVIDIA GeForce RTX 4060", "16GB RAM", "1TB SSD"] := by
  have hs : storagePass tier mock1 = true := by
    rcases htier with h | ⟨m, hm, hle⟩
    · rw [storagePass, h]
    · rw [storagePass, hm]
      show (if (1024 : ℕ) = 0 then true else decide (m ≤ 1024)) = true
      simpa using hle
  refine ⟨by decide, by decide, by decide, by decide, by decide, by decide, ?_, rfl⟩
  show (sortByScoreDesc ((List.filter (storagePass tier)
      (List.filter (budgetPass .b700to999 (12 / 100))
        (List.filter (fun c => (strictMeetsRequirements c).ok) [mock1]))).map
          (scoreOne ⟨.b700to999, tier⟩))).take 5 = [mock1Rec]
  rw [show List.filter (fun c => (strictMeetsRequirements c).ok) [mock1] = [mock1] from
    by decide]
  rw [show List.filter (budgetPass .b700to999 (12 / 100)) [mock1] = [mock1] from by decide]
  rw [show List.filter (storagePass tier) [mock1] = [mock1] from by
    rw [List.filter_cons, hs]; rfl]
  rw [List.map_cons, List.map_nil]
  rw [show scoreOne ⟨.b700to999, tier⟩ mock1 = mock1Rec from by
    rw [scoreOne_congr_storageTier .b700to999 tier .s1tb]; decide]
  rfl

/-- Witness for C2 at the "1tb" storage tier. -/
theorem end_to_end_scenario_witness :
    budgetMaxTolOf .b700to999 (12 / 100) = .fin 1118.88 ∧
    budgetPass .b700to999 (12 / 100) mock1 = true ∧
    inferCpuTier mock1.cpu = 3 ∧
    (inferGpuTier mock1.gpu).tier = 3 ∧
    inferRamScore mock1.ramGb = 2 ∧
    (0.4 : ℚ) * inferCpuTier mock1.cpu + (0.4 : ℚ) * (inferGpuTier mock1.gpu).tier +
      (0.2 : ℚ) * inferRamScore mock1.ramGb = 2.8 ∧
    recommendFromCandidates [mock1] ⟨.b700to999, .s1tb⟩ ⟨none, some (12 / 100)⟩ =
      [mock1Rec] ∧
    mock1Rec.reasons =
      ["CPU: Intel Core i5", "GPU: NVIDIA GeForce RTX 4060", "16GB RAM", "1TB SSD"] :=
  end_to_end_scenario .s1tb (Or.inr ⟨1024, rfl, by decide⟩)

/-! ## Claim C8: the storage parser's priority and keyword rules -/

/-- C8: for every title, `parseStorage` first tries the decimal-TB pattern
(returning the value ×1024, rounded), then the 3–4 digit GB pattern; the
kind is SSD when the lowercased title contains "nvme" or "ssd", HDD when it
contains whole-word "hdd", else Unknown; with no size match both fields are
absent regardless of the keywords. -/
theorem parse_storage_spec (text : String) :
    (∀ v, tbFind text = some v →
      parseStorage text = ⟨some (jsRound (v * 1024)).toNat, some (storageKind text)⟩) ∧
    (tbFind text = none → ∀ g, gbFind text = some g →
      parseStorage text = ⟨some g, some (storageKind text)⟩) ∧
    (tbFind text = none → gbFind text = none → parseStorage text = ⟨none, none⟩) ∧
    storageKind text =
      (if containsSeq "nvme".data (lowerStr text) || containsSeq "ssd".data (lowerStr text)
        then .SSD
       else if wordTest "hdd".data (lowerStr text) then .HDD
       else .Unknown) := by
  refine ⟨?_, ?_, ?_, rfl⟩
  · intro v hv
    rw [parseStorage, hv]
  · intro h0 g hg
    rw [parseStorage, h0, hg]
  · intro h0 h1
    rw [parseStorage, h0, h1]

/-- Witness for C8 on the concrete title "1TB NVMe SSD". -/
theorem parse_storage_spec_witness :
    tbFind "1TB NVMe SSD" = some 1 ∧
    parseStorage "1TB NVMe SSD" =
      ⟨some (jsRound ((1 : ℚ) * 1024)).toNat, some (storageKind "1TB NVMe SSD")⟩ :=
  ⟨by decide, (parse_storage_spec "1TB NVMe SSD").1 1 (by decide)⟩

/-! ## Claim C9, part 1: character-class lemmas -/

theorem toLower_eq_self {c : Char} (h : ¬(65 ≤ c.toNat ∧ c.toNat ≤ 90)) : c.toLower = c := by
  show (if c.toNat ≥ 65 ∧ c.toNat ≤ 90 then Char.ofNat (c.toNat + 32) else c) = c
  exact if_neg h

theorem ws_toLower {c : Char} (h : isWs c = true) : c.toLower = c := by
  apply toLower_eq_self
  simp only [isWs, Bool.or_eq_true, beq_iff_eq] at h
  omega

theorem digit_toLower {c : Char} (h : isDigitChar c = true) : c.toLower = c := by
  apply toLower_eq_self
  simp only [isDigitChar, Bool.and_eq_true, decide_eq_true_eq] at h
  omega

theorem ws_not_word {c : Char} (h : isWs c = true) : isWordChar c = false := by
  simp only [isWs, Bool.or_eq_true, beq_iff_eq] at h
  simp only [isWordChar, Bool.or_eq_false_iff, Bool.and_eq_false_iff, beq_eq_false_iff_ne,
    ne_eq, decide_eq_false_iff_not, not_le]
  omega

theorem digit_not_ws {c : Char} (h : isDigitChar c = true) : isWs c = false := by
  simp only [isDigitChar, Bool.and_eq_true, decide_eq_true_eq] at h
  simp only [isWs, Bool.or_eq_false_iff, beq_eq_false_iff_ne, ne_eq]
  omega

theorem map_toLower_id {l : List Char} (h : ∀ c ∈ l, c.toLower = c) :
    l.map Char.toLower = l := by
  induction l with
  | nil => rfl
  | cons c t ih =>
    rw [List.map_cons, h c (by simp), ih (fun d hd => h d (by simp [hd]))]

theorem wsList_map_toLower {w : List Char} (h : WsList w) : w.map Char.toLower = w :=
  map_toLower_id fun c hc => ws_toLower (h c hc)

theorem digitList_map_toLower {d : List Char} (h : DigitList d) : d.map Char.toLower = d :=
  map_toLower_id fun c hc => digit_toLower (h c hc)

theorem ws_not_mem {x : Char} {w : List Char} (hw : WsList w) (hx : isWs x = false) :
    x ∉ w := fun h => by rw [hw x h] at hx; cases hx

theorem digit_not_mem {x : Char} {d : List Char} (hd : DigitList d)
    (hx : isDigitChar x = false) : x ∉ d := fun h => by rw [hd x h] at hx; cases hx

theorem not_mem_append' {x : Char} {l₁ l₂ : List Char} (h₁ : x ∉ l₁) (h₂ : x ∉ l₂) :
    x ∉ l₁ ++ l₂ := fun h => (List.mem_append.mp h).elim h₁ h₂

theorem head?_append_ne {b : Char} {l₁ l₂ : List Char} (h₁ : ∀ c ∈ l₁, c ≠ b)
    (h₂ : l₂.head? ≠ some b) : (l₁ ++ l₂).head? ≠ some b := by
  rw [List.head?_append]
  cases hh : l₁.head? with
  | none => simpa using h₂
  | some c =>
    have hc : c ≠ b := h₁ c (List.mem_of_mem_head? hh)
    simp [Option.or, hc]

/-! ## Claim C9, part 2: computing the matchers forward -/

theorem takeLit_append (pat r : List Char) : takeLit pat (pat ++ r) = some (pat, r) := by
  induction pat with
  | nil => rfl
  | cons p ps ih => simp [takeLit, ih]

theorem takeDigits_append {n : ℕ} {d : List Char} (r : List Char) (hlen : d.length = n)
    (hd : DigitList d) : takeDigits n (d ++ r) = some (d, r) := by
  subst hlen
  rw [takeDigits, List.take_left, List.drop_left]
  simp only [beq_self_eq_true, Bool.true_and, List.all_eq_true]
  exact if_pos hd

theorem dropWhile_ws {w : List Char} (r : List Char) (hw : WsList w)
    (hr : ∀ c, r.head? = some c → isWs c = false) :
    List.dropWhile isWs (w ++ r) = r := by
  induction w with
  | nil =>
    rw [List.nil_append]
    cases r with
    | nil => rfl
    | cons c t => rw [List.dropWhile_cons, if_neg (by simp [hr c rfl])]
  | cons c t ih =>
    rw [List.cons_append, List.dropWhile_cons, if_pos (hw c (by simp))]
    exact ih fun d hd => hw d (by simp [hd])

/-! ## Claim C9, part 3: decomposing successful captures -/

theorem tryAlts_eq : ∀ {alts : List (List Char)} {r m r' : List Char},
    tryAlts alts r = some (m, r') → ∃ alt ∈ alts, m.map Char.toLower = alt := by
  intro alts
  induction alts with
  | nil => intro r m r' h; rw [tryAlts] at h; cases h
  | cons a rest ih =>
    intro r m r' h
    rw [tryAlts] at h
    split at h
    next m₀ r₀ heq =>
      split at h
      · injection h with h
        injection h with h₁ h₂
        exact ⟨a, by simp, h₁ ▸ (takeLitCI_eq a r m₀ r₀ heq).2⟩
      · obtain ⟨alt, hmem, hm⟩ := ih h
        exact ⟨alt, by simp [hmem], hm⟩
    next heq =>
      obtain ⟨alt, hmem, hm⟩ := ih h
      exact ⟨alt, by simp [hmem], hm⟩

theorem optGroupB_eq {alts : List (List Char)} {l sfx r : List Char}
    (h : optGroupB alts l = some (sfx, r)) :
    sfx = [] ∨ ∃ w₃ m₃ alt, sfx = w₃ ++ m₃ ∧ WsList w₃ ∧ alt ∈ alts ∧
      m₃.map Char.toLower = alt := by
  rw [optGroupB] at h
  split at h
  next m₀ r₀ heq =>
    injection h with h
    injection h with h₁ h₂
    obtain ⟨alt, hmem, hm⟩ := tryAlts_eq heq
    exact Or.inr ⟨l.takeWhile isWs, m₀, alt, h₁.symm,
      fun c hc => List.mem_takeWhile_imp hc, hmem, hm⟩
  next heq =>
    split at h
    · injection h with h
      injection h with h₁ h₂
      exact Or.inl h₁.symm
    · cases h

theorem gpuCaptureAt_eq {lit₁ lit₂ : List Char} {n : ℕ} {alts : List (List Char)}
    {prev : Option Char} {l cap : List Char}
    (h : gpuCaptureAt lit₁ lit₂ n alts prev l = some cap) :
    GpuCapShape lit₁ lit₂ n alts cap := by
  rw [gpuCaptureAt] at h
  split at h
  case isFalse => cases h
  case isTrue =>
    simp only [Option.bind_eq_some] at h
    obtain ⟨⟨m₁, r₁⟩, h₁, ⟨w₁, r₂⟩, h₂, ⟨m₂, r₃⟩, h₃, ⟨d, r₅⟩, h₄, ⟨sfx, r₆⟩, h₅, hcap⟩ := h
    injection hcap with hcap
    obtain ⟨-, hm₁⟩ := takeLitCI_eq _ _ _ _ h₁
    obtain ⟨-, hw₁ne, hw₁⟩ := takeWs1_eq h₂
    obtain ⟨-, hm₂⟩ := takeLitCI_eq _ _ _ _ h₃
    obtain ⟨-, hdlen, hdd⟩ := takeDigits_eq h₄
    exact ⟨m₁, w₁, m₂, r₃.takeWhile isWs, d, sfx, hcap.symm, hm₁, hw₁ne, hw₁, hm₂,
      fun c hc => List.mem_takeWhile_imp hc, hdlen, hdd, optGroupB_eq h₅⟩

theorem arcCaptureAt_eq {prev : Option Char} {l cap : List Char}
    (h : arcCaptureAt prev l = some cap) : ArcCapShape cap := by
  rw [arcCaptureAt] at h
  split at h
  case isFalse => cases h
  case isTrue =>
    simp only [Option.bind_eq_some] at h
    obtain ⟨⟨m₁, r₁⟩, h₁, ⟨w₁, r₂⟩, h₂, ⟨m₂, r₃⟩, h₃, ⟨w₂, r₄⟩, h₄, ⟨m₃, r₅⟩, h₅,
      ⟨d, r₆⟩, h₆, hcap⟩ := h
    split at hcap
    case isFalse => cases hcap
    case isTrue =>
      injection hcap with hcap
      obtain ⟨-, hm₁⟩ := takeLitCI_eq _ _ _ _ h₁
      obtain ⟨-, hw₁ne, hw₁⟩ := takeWs1_eq h₂
      obtain ⟨-, hm₂⟩ := takeLitCI_eq _ _ _ _ h₃
      obtain ⟨-, hw₂ne, hw₂⟩ := takeWs1_eq h₄
      obtain ⟨-, hm₃⟩ := takeLitCI_eq _ _ _ _ h₅
      obtain ⟨-, hdlen, hdd⟩ := takeDigits_eq h₆
      exact ⟨m₁, w₁, m₂, w₂, m₃, d, hcap.symm, hm₁, hw₁ne, hw₁, hm₂, hw₂ne, hw₂, hm₃,
        hdlen, hdd⟩

/-- Case analysis of a successful `parseGpu`: the label is one of the four
brand shapes. -/
theorem parseGpu_eq {t label : String} (h : parseGpu t = some label) :
    (∃ cap, label = "NVIDIA " ++ (⟨cap⟩ : String) ∧
      GpuCapShape "geforce".data "rtx".data 4 ["ti".data, "super".data] cap) ∨
    (∃ cap, label = "NVIDIA " ++ (⟨cap⟩ : String) ∧
      GpuCapShape "geforce".data "gtx".data 4 ["super".data] cap) ∨
    (∃ cap, label = "AMD " ++ (⟨cap⟩ : String) ∧
      GpuCapShape "radeon".data "rx".data 4 ["xt".data] cap) ∨
    (∃ cap, label = (⟨cap⟩ : String) ∧ ArcCapShape cap) := by
  rw [parseGpu] at h
  cases h₁ : scanFrom (gpuCaptureAt "geforce".data "rtx".data 4 ["ti".data, "super".data])
      none t.data with
  | some cap =>
    rw [h₁] at h
    injection h with h
    obtain ⟨l₁, l₂, -, hf⟩ := scanFrom_sound _ _ _ _ h₁
    exact Or.inl ⟨cap, h.symm, gpuCaptureAt_eq hf⟩
  | none =>
  rw [h₁] at h
  cases h₂ : scanFrom (gpuCaptureAt "geforce".data "gtx".data 4 ["super".data])
      none t.data with
  | some cap =>
    rw [h₂] at h
    injection h with h
    obtain ⟨l₁, l₂, -, hf⟩ := scanFrom_sound _ _ _ _ h₂
    exact Or.inr (Or.inl ⟨cap, h.symm, gpuCaptureAt_eq hf⟩)
  | none =>
  rw [h₂] at h
  cases h₃ : scanFrom (gpuCaptureAt "radeon".data "rx".data 4 ["xt".data]) none t.data with
  | some cap =>
    rw [h₃] at h
    injection h with h
    obtain ⟨l₁, l₂, -, hf⟩ := scanFrom_sound _ _ _ _ h₃
    exact Or.inr (Or.inr (Or.inl ⟨cap, h.symm, gpuCaptureAt_eq hf⟩))
  | none =>
  rw [h₃] at h
  cases h₄ : scanFrom arcCaptureAt none t.data with
  | some cap =>
    rw [h₄] at h
    injection h with h
    obtain ⟨l₁, l₂, -, hf⟩ := scanFrom_sound _ _ _ _ h₄
    exact Or.inr (Or.inr (Or.inr ⟨cap, h.symm, arcCaptureAt_eq hf⟩))
  | none =>
    rw [h₄] at h
    cases h

/-! ## Claim C9, part 4: labels produced by `parseGpu` are never integrated -/

theorem exists_getLast?_mem {l : List Char} (h : l ≠ []) :
    ∃ c, l.getLast? = some c ∧ c ∈ l := by
  cases hl : l.getLast? with
  | none => exact absurd (List.getLast?_eq_none_iff.mp hl) h
  | some c => exact ⟨c, rfl, List.mem_of_mem_getLast? hl⟩

theorem litThenBoundary_occurs {w t : List Char} (h : litThenBoundary w t = true) :
    w <:+: t := by
  rw [litThenBoundary, Option.isSome_iff_exists] at h
  obtain ⟨a, ha⟩ := h
  obtain ⟨l₁, l₂, heq, hf⟩ := scanFrom_sound _ _ _ _ ha
  cases htl : takeLit w l₂ with
  | none => rw [htl] at hf; cases hf
  | some mr =>
    obtain ⟨m, rest⟩ := mr
    obtain ⟨-, hl₂⟩ := takeLit_eq w l₂ m rest htl
    exact ⟨l₁, rest, by rw [heq, hl₂, List.append_assoc]⟩

theorem integratedTest_false {t : List Char} (hh : 'h' ∉ t)
    (hir : ¬ ['i', 'r'] <:+: t) (hxe : ¬ ['x', 'e'] <:+: t) :
    integratedTest t = false := by
  rw [integratedTest]
  have h1 : containsSeq "uhd".data t = false := containsSeq_false_of_not_mem (by decide) hh
  have h2 : containsSeq "iris".data t = false := by
    cases hc : containsSeq "iris".data t with
    | false => rfl
    | true => exact absurd (pair_of_infix_cons ((containsSeq_iff _ _).mp hc)) hir
  have h3 : litThenBoundary "xe".data t = false := by
    cases hc : litThenBoundary "xe".data t with
    | false => rfl
    | true => exact absurd (litThenBoundary_occurs hc) hxe
  have h4 : containsSeq "intel graphics".data t = false :=
    containsSeq_false_of_not_mem (by decide) hh
  have h5 : containsSeq "radeon graphics".data t = false :=
    containsSeq_false_of_not_mem (by decide) hh
  rw [h1, h2, h3, h4, h5]
  rfl

/-- Character non-membership in a brand-shaped label. -/
theorem not_mem_nv_shape {x : Char} {L₀ L₁ L₂ w₁ w₂ d s : List Char}
    (hw₁ : WsList w₁) (hw₂ : WsList w₂) (hd : DigitList d)
    (hsf : s = [] ∨ ∃ w₃ m₃, s = w₃ ++ m₃ ∧ WsList w₃ ∧ x ∉ m₃)
    (hxws : isWs x = false) (hxdig : isDigitChar x = false)
    (h0 : x ∉ L₀) (h1 : x ∉ L₁) (h2 : x ∉ L₂) :
    x ∉ L₀ ++ (L₁ ++ (w₁ ++ (L₂ ++ (w₂ ++ (d ++ s))))) := by
  have hs : x ∉ s := by
    rcases hsf with rfl | ⟨w₃, m₃, rfl, hw₃, hm₃⟩
    · simp
    · exact not_mem_append' (ws_not_mem hw₃ hxws) hm₃
  exact not_mem_append' h0 (not_mem_append' h1 (not_mem_append' (ws_not_mem hw₁ hxws)
    (not_mem_append' h2 (not_mem_append' (ws_not_mem hw₂ hxws)
      (not_mem_append' (digit_not_mem hd hxdig) hs)))))

theorem not_mem_arc_shape {x : Char} {w₁ w₂ d : List Char}
    (hw₁ : WsList w₁) (hw₂ : WsList w₂) (hd : DigitList d)
    (hxws : isWs x = false) (hxdig : isDigitChar x = false)
    (h0 : x ∉ "intel".data) (h1 : x ∉ "arc".data) (h2 : x ∉ ['a']) :
    x ∉ "intel".data ++ (w₁ ++ ("arc".data ++ (w₂ ++ (['a'] ++ d)))) :=
  not_mem_append' h0 (not_mem_append' (ws_not_mem hw₁ hxws)
    (not_mem_append' h1 (not_mem_append' (ws_not_mem hw₂ hxws)
      (not_mem_append' h2 (digit_not_mem hd hxdig)))))

/-- Pair absence in a brand-shaped label: no block contains the pair, the
word blocks never end with `a`, and nothing after a block that can end with
`a` starts with `b` (whitespace and digit classes exclude both characters,
and the optional suffix literal neither contains the pair nor starts with
`b`). -/
theorem noPair_nv_shape {a b : Char} {L₀ L₁ L₂ w₁ w₂ d s : List Char}
    (hw₁ : WsList w₁) (hw₂ : WsList w₂) (hd : DigitList d)
    (hsf : s = [] ∨ ∃ w₃ m₃, s = w₃ ++ m₃ ∧ WsList w₃ ∧
      containsSeq [a, b] m₃ = false ∧ m₃.head? ≠ some b)
    (haws : isWs a = false) (hadig : isDigitChar a = false)
    (hbws : isWs b = false) (hbdig : isDigitChar b = false)
    (h0 : containsSeq [a, b] L₀ = false) (h1 : containsSeq [a, b] L₁ = false)
    (h2 : containsSeq [a, b] L₂ = false)
    (h0last : L₀.getLast? ≠ some a) (h1last : L₁.getLast? ≠ some a) :
    ¬ [a, b] <:+: L₀ ++ (L₁ ++ (w₁ ++ (L₂ ++ (w₂ ++ (d ++ s))))) := by
  have hsb : s.head? ≠ some b := by
    rcases hsf with rfl | ⟨w₃, m₃, rfl, hw₃, -, hm₃b⟩
    · simp
    · exact head?_append_ne (fun c hc => ne_of_cls (hw₃ c hc) hbws) hm₃b
  have hnps : ¬ [a, b] <:+: s := by
    rcases hsf with rfl | ⟨w₃, m₃, rfl, hw₃, hm₃, -⟩
    · simp [List.infix_nil]
    · exact noPair_append (noPair_of_all_ne_left fun c hc => ne_of_cls (hw₃ c hc) haws)
        (noPair_of_containsSeq hm₃)
        (fun hl => absurd hl (getLast?_ne_of_all fun c hc => ne_of_cls (hw₃ c hc) haws))
  have hds : ¬ [a, b] <:+: d ++ s :=
    noPair_append (noPair_of_all_ne_left fun c hc => ne_of_cls (hd c hc) hadig) hnps
      (fun hl => absurd hl (getLast?_ne_of_all fun c hc => ne_of_cls (hd c hc) hadig))
  have hwds : ¬ [a, b] <:+: w₂ ++ (d ++ s) :=
    noPair_append (noPair_of_all_ne_left fun c hc => ne_of_cls (hw₂ c hc) haws) hds
      (fun hl => absurd hl (getLast?_ne_of_all fun c hc => ne_of_cls (hw₂ c hc) haws))
  have hLwds : ¬ [a, b] <:+: L₂ ++ (w₂ ++ (d ++ s)) := by
    refine noPair_append (noPair_of_containsSeq h2) hwds (fun _ => ?_)
    refine head?_append_ne (fun c hc => ne_of_cls (hw₂ c hc) hbws) ?_
    exact head?_append_ne (fun c hc => ne_of_cls (hd c hc) hbdig) hsb
  have hw₁c : ¬ [a, b] <:+: w₁ ++ (L₂ ++ (w₂ ++ (d ++ s))) :=
    noPair_append (noPair_of_all_ne_left fun c hc => ne_of_cls (hw₁ c hc) haws) hLwds
      (fun hl => absurd hl (getLast?_ne_of_all fun c hc => ne_of_cls (hw₁ c hc) haws))
  have hL₁c : ¬ [a, b] <:+: L₁ ++ (w₁ ++ (L₂ ++ (w₂ ++ (d ++ s)))) :=
    noPair_append (noPair_of_containsSeq h1) hw₁c (fun hl => absurd hl h1last)
  exact noPair_append (noPair_of_containsSeq h0) hL₁c (fun hl => absurd hl h0last)

/-- Pair absence in the Intel-Arc label shape (every junction is vacuous
because no block ends with `a` there). -/
theorem noPair_arc_shape {a b : Char} {w₁ w₂ d : List Char}
    (hw₁ : WsList w₁) (hw₂ : WsList w₂) (hd : DigitList d)
    (haws : isWs a = false) (hadig : isDigitChar a = false)
    (h0 : containsSeq [a, b] "intel".data = false)
    (h1 : containsSeq [a, b] "arc".data = false)
    (h2 : containsSeq [a, b] ['a'] = false)
    (h0last : ("intel".data).getLast? ≠ some a)
    (h1last : ("arc".data).getLast? ≠ some a)
    (h2last : (['a'] : List Char).getLast? ≠ some a) :
    ¬ [a, b] <:+: "intel".data ++ (w₁ ++ ("arc".data ++ (w₂ ++ (['a'] ++ d)))) := by
  have hda : ¬ [a, b] <:+: (['a'] : List Char) ++ d :=
    noPair_append (noPair_of_containsSeq h2)
      (noPair_of_all_ne_left fun c hc => ne_of_cls (hd c hc) hadig)
      (fun hl => absurd hl h2last)
  have hwda : ¬ [a, b] <:+: w₂ ++ ((['a'] : List Char) ++ d) :=
    noPair_append (noPair_of_all_ne_left fun c hc => ne_of_cls (hw₂ c hc) haws) hda
      (fun hl => absurd hl (getLast?_ne_of_all fun c hc => ne_of_cls (hw₂ c hc) haws))
  have harc : ¬ [a, b] <:+: "arc".data ++ (w₂ ++ ((['a'] : List Char) ++ d)) :=
    noPair_append (noPair_of_containsSeq h1) hwda (fun hl => absurd hl h1last)
  have hw₁c : ¬ [a, b] <:+: w₁ ++ ("arc".data ++ (w₂ ++ ((['a'] : List Char) ++ d))) :=
    noPair_append (noPair_of_all_ne_left fun c hc => ne_of_cls (hw₁ c hc) haws) harc
      (fun hl => absurd hl (getLast?_ne_of_all fun c hc => ne_of_cls (hw₁ c hc) haws))
  exact noPair_append (noPair_of_containsSeq h0) hw₁c (fun hl => absurd hl h0last)

/-! ## Claim C9, part 5: the lowered label in block form -/

theorem brand_label_lower {cap lit₁ lit₂ : List Char} {n : ℕ} {alts : List (List Char)}
    (pre : String) (preL : List Char) (hpre : (pre.data).map Char.toLower = preL)
    (hs : GpuCapShape lit₁ lit₂ n alts cap) :
    ∃ w₁ w₂ d s,
      lowerStr (pre ++ (⟨cap⟩ : String)) =
        preL ++ (lit₁ ++ (w₁ ++ (lit₂ ++ (w₂ ++ (d ++ s))))) ∧
      w₁ ≠ [] ∧ WsList w₁ ∧ WsList w₂ ∧ d.length = n ∧ DigitList d ∧
      (s = [] ∨ ∃ w₃ alt, s = w₃ ++ alt ∧ WsList w₃ ∧ alt ∈ alts) := by
  obtain ⟨m₁, w₁, m₂, w₂, d, sfx, hcap, hm₁, hw₁ne, hw₁, hm₂, hw₂, hdlen, hdd, hsfx⟩ := hs
  refine ⟨w₁, w₂, d, sfx.map Char.toLower, ?_, hw₁ne, hw₁, hw₂, hdlen, hdd, ?_⟩
  · show ((pre ++ (⟨cap⟩ : String)).data).map Char.toLower = _
    rw [String.data_append]
    show ((pre.data) ++ cap).map Char.toLower = _
    rw [List.map_append, hpre, hcap]
    simp only [List.map_append]
    rw [hm₁, hm₂, wsList_map_toLower hw₁, wsList_map_toLower hw₂, digitList_map_toLower hdd]
    simp [List.append_assoc]
  · rcases hsfx with rfl | ⟨w₃, m₃, alt, rfl, hw₃, hmem, hm₃⟩
    · exact Or.inl (by simp)
    · refine Or.inr ⟨w₃, alt, ?_, hw₃, hmem⟩
      rw [List.map_append, wsList_map_toLower hw₃, hm₃]

theorem arc_label_lower {cap : List Char} (hs : ArcCapShape cap) :
    ∃ w₁ w₂ d,
      lowerStr (⟨cap⟩ : String) =
        "intel".data ++ (w₁ ++ ("arc".data ++ (w₂ ++ (['a'] ++ d)))) ∧
      w₁ ≠ [] ∧ WsList w₁ ∧ w₂ ≠ [] ∧ WsList w₂ ∧ d.length = 3 ∧ DigitList d := by
  obtain ⟨m₁, w₁, m₂, w₂, m₃, d, hcap, hm₁, hw₁ne, hw₁, hm₂, hw₂ne, hw₂, hm₃, hdlen, hdd⟩ := hs
  refine ⟨w₁, w₂, d, ?_, hw₁ne, hw₁, hw₂ne, hw₂, hdlen, hdd⟩
  show cap.map Char.toLower = _
  rw [hcap]
  simp only [List.map_append]
  rw [hm₁, hm₂, hm₃, wsList_map_toLower hw₁, wsList_map_toLower hw₂,
    digitList_map_toLower hdd]
  simp [List.append_assoc]

/-! ## Claim C9, part 6: the integrated-keyword test fails on brand labels -/

/-- The integrated-graphics keyword test is false on every label of the
NVIDIA/AMD block shape; the hypotheses on the literal blocks are discharged
by `decide` at the concrete brands. -/
theorem integrated_false_nv {L₀ L₁ L₂ : List Char} {alts : List (List Char)}
    {w₁ w₂ d s : List Char}
    (hw₁ : WsList w₁) (hw₂ : WsList w₂) (hd : DigitList d)
    (hsf : s = [] ∨ ∃ w₃ alt, s = w₃ ++ alt ∧ WsList w₃ ∧ alt ∈ alts)
    (hh0 : 'h' ∉ L₀) (hh1 : 'h' ∉ L₁) (hh2 : 'h' ∉ L₂)
    (hir0 : containsSeq ['i', 'r'] L₀ = false) (hir1 : containsSeq ['i', 'r'] L₁ = false)
    (hir2 : containsSeq ['i', 'r'] L₂ = false)
    (hxe0 : containsSeq ['x', 'e'] L₀ = false) (hxe1 : containsSeq ['x', 'e'] L₁ = false)
    (hxe2 : containsSeq ['x', 'e'] L₂ = false)
    (h0i : L₀.getLast? ≠ some 'i') (h1i : L₁.getLast? ≠ some 'i')
    (h0x : L₀.getLast? ≠ some 'x') (h1x : L₁.getLast? ≠ some 'x')
    (halts : ∀ alt ∈ alts, 'h' ∉ alt ∧ containsSeq ['i', 'r'] alt = false ∧
      containsSeq ['x', 'e'] alt = false ∧ alt.head? ≠ some 'r' ∧ alt.head? ≠ some 'e') :
    integratedTest (L₀ ++ (L₁ ++ (w₁ ++ (L₂ ++ (w₂ ++ (d ++ s)))))) = false := by
  apply integratedTest_false
  · refine not_mem_nv_shape hw₁ hw₂ hd ?_ (by decide) (by decide) hh0 hh1 hh2
    rcases hsf with rfl | ⟨w₃, alt, rfl, hw₃, hmem⟩
    · exact Or.inl rfl
    · exact Or.inr ⟨w₃, alt, rfl, hw₃, (halts alt hmem).1⟩
  · refine noPair_nv_shape hw₁ hw₂ hd ?_ (by decide) (by decide) (by decide) (by decide)
      hir0 hir1 hir2 h0i h1i
    rcases hsf with rfl | ⟨w₃, alt, rfl, hw₃, hmem⟩
    · exact Or.inl rfl
    · exact Or.inr ⟨w₃, alt, rfl, hw₃, (halts alt hmem).2.1, (halts alt hmem).2.2.2.1⟩
  · refine noPair_nv_shape hw₁ hw₂ hd ?_ (by decide) (by decide) (by decide) (by decide)
      hxe0 hxe1 hxe2 h0x h1x
    rcases hsf with rfl | ⟨w₃, alt, rfl, hw₃, hmem⟩
    · exact Or.inl rfl
    · exact Or.inr ⟨w₃, alt, rfl, hw₃, (halts alt hmem).2.2.1, (halts alt hmem).2.2.2.2⟩

/-- The integrated-graphics keyword test is false on every label of the
Intel-Arc block shape. -/
theorem integrated_false_arc {w₁ w₂ d : List Char}
    (hw₁ : WsList w₁) (hw₂ : WsList w₂) (hd : DigitList d) :
    integratedTest ("intel".data ++ (w₁ ++ ("arc".data ++ (w₂ ++ (['a'] ++ d))))) = false := by
  apply integratedTest_false
  · exact not_mem_arc_shape hw₁ hw₂ hd (by decide) (by decide) (by decide) (by decide)
      (by decide)
  · exact noPair_arc_shape hw₁ hw₂ hd (by decide) (by decide) (by decide) (by decide)
      (by decide) (by decide) (by decide) (by decide)
  · exact noPair_arc_shape hw₁ hw₂ hd (by decide) (by decide) (by decide) (by decide)
      (by decide) (by decide) (by decide) (by decide)

/-! ## Claim C9, part 7: some brand matcher (or the fallback) fires -/

theorem takeLit_nil (l : List Char) : takeLit [] l = some ([], l) := rfl

theorem contains_block₃ (A B C rest : List Char) :
    containsSeq C (A ++ (B ++ (C ++ rest))) = true :=
  (containsSeq_iff _ _).mpr ⟨A ++ B, rest, by simp [List.append_assoc]⟩

theorem contains_block₄ (A B C D rest : List Char) :
    containsSeq D (A ++ (B ++ (C ++ (D ++ rest)))) = true :=
  (containsSeq_iff _ _).mpr ⟨A ++ (B ++ C), rest, by simp [List.append_assoc]⟩

theorem gpuBrandTest_true {t : List Char}
    (h : containsSeq "rtx".data t = true ∨ containsSeq "gtx".data t = true ∨
      containsSeq "arc".data t = true) : gpuBrandTest t = true := by
  rw [gpuBrandTest]
  rcases h with h | h | h <;> simp [h]

/-- On an AMD-shaped label the `/\brx\s*(\d{4})/` matcher necessarily
succeeds: the occurrence of "rx" after the mandatory whitespace run is a
valid match position. -/
theorem modelFindB_isSome_of_shape {L₀ L₁ : List Char} {w₁ w₂ d s : List Char} {n : ℕ}
    (lit : List Char) (hw₁ne : w₁ ≠ []) (hw₁ : WsList w₁) (hw₂ : WsList w₂)
    (hdlen : d.length = n) (hd : DigitList d) (hdne : d ≠ []) :
    (modelFindB lit [] n (L₀ ++ (L₁ ++ (w₁ ++ (lit ++ (w₂ ++ (d ++ s))))))).isSome = true := by
  rw [modelFindB]
  rw [show L₀ ++ (L₁ ++ (w₁ ++ (lit ++ (w₂ ++ (d ++ s))))) =
      (L₀ ++ (L₁ ++ w₁)) ++ (lit ++ (w₂ ++ (d ++ s))) from by simp [List.append_assoc]]
  apply scanFrom_isSome
  obtain ⟨c, hc, hcmem⟩ := exists_getLast?_mem hw₁ne
  have hlast : (L₀ ++ (L₁ ++ w₁)).getLast? = some c := by
    rw [List.getLast?_append, List.getLast?_append, hc]
    rfl
  have hprev : prevAt none (L₀ ++ (L₁ ++ w₁)) = some c := by
    rw [prevAt, hlast]
  have hb : boundaryBefore (some c) = true := by
    rw [boundaryBefore, ws_not_word (hw₁ c hcmem)]
    rfl
  have hdw : List.dropWhile isWs (w₂ ++ (d ++ s)) = d ++ s := by
    refine dropWhile_ws (d ++ s) hw₂ fun c₀ hc₀ => ?_
    cases d with
    | nil => exact absurd rfl hdne
    | cons e t =>
      rw [List.cons_append] at hc₀
      injection hc₀ with hc₀
      exact hc₀ ▸ digit_not_ws (hd e (by simp))
  have hgm : gpuModelAt lit [] n (lit ++ (w₂ ++ (d ++ s))) = some (digitsToNat d, s) := by
    rw [gpuModelAt, takeLit_append]
    show (match takeLit [] (List.dropWhile isWs (w₂ ++ (d ++ s))) with
      | some (_, r₂) =>
        match takeDigits n r₂ with
        | some (d', r₃) => some (digitsToNat d', r₃)
        | none => none
      | none => none) = _
    rw [takeLit_nil, hdw]
    show (match takeDigits n (d ++ s) with
      | some (d', r₃) => some (digitsToNat d', r₃)
      | none => none) = _
    rw [takeDigits_append s hdlen hd]
  rw [hprev]
  show (if boundaryBefore (some c) = true then
      match gpuModelAt lit [] n (lit ++ (w₂ ++ (d ++ s))) with
      | some (v, _) => some v
      | none => none
    else none).isSome = true
  rw [hb, if_pos rfl, hgm]
  rfl

/-! ## Claim C9, part 8: discreteness through the tier branches -/

/-- Once the integrated-keyword test fails and either the brand fallback or
the RX matcher fires, every branch of `inferGpuTier` yields a discrete
result of tier at least 1. -/
theorem inferGpuTier_discrete_of {s : String} (hne : ¬ s = "")
    (hint : integratedTest (lowerStr s) = false)
    (hbrand : gpuBrandTest (lowerStr s) = true ∨
      (modelFindB "rx".data [] 4 (lowerStr s)).isSome = true) :
    (inferGpuTier (some s)).isDiscrete = true ∧ 1 ≤ (inferGpuTier (some s)).tier := by
  simp only [inferGpuTier]
  rw [if_neg hne, hint]
  simp only [Bool.false_and]
  rw [if_neg Bool.false_ne_true]
  cases h1 : modelFind "rtx".data [] 4 (lowerStr s) with
  | some m =>
    simp only [h1]
    constructor
    · repeat' split
      all_goals rfl
    · repeat' split
      all_goals decide
  | none =>
  simp only [h1]
  cases h2 : modelFind "gtx".data [] 4 (lowerStr s) with
  | some m =>
    simp only [h2]
    constructor
    · split <;> rfl
    · split <;> decide
  | none =>
  simp only [h2]
  cases h3 : modelFindB "rx".data [] 4 (lowerStr s) with
  | some m =>
    simp only [h3]
    constructor
    · repeat' split
      all_goals rfl
    · repeat' split
      all_goals decide
  | none =>
  simp only [h3]
  cases h4 : modelFindB "arc".data ['a'] 3 (lowerStr s) with
  | some m =>
    simp only [h4]
    constructor
    · repeat' split
      all_goals rfl
    · repeat' split
      all_goals decide
  | none =>
    simp only [h4]
    rcases hbrand with hb | hb
    · rw [hb]
      exact ⟨rfl, by decide⟩
    · rw [h3] at hb
      cases hb

/-- A label returned by `parseGpu` is never the empty string. -/
theorem parseGpu_label_ne {t label : String} (h : parseGpu t = some label) : label ≠ "" := by
  rcases parseGpu_eq h with ⟨cap, rfl, -⟩ | ⟨cap, rfl, -⟩ | ⟨cap, rfl, -⟩ | ⟨cap, rfl, hs⟩
  · intro he
    have hd := congrArg String.data he
    rw [String.data_append] at hd
    simp at hd
  · intro he
    have hd := congrArg String.data he
    rw [String.data_append] at hd
    simp at hd
  · intro he
    have hd := congrArg String.data he
    rw [String.data_append] at hd
    simp at hd
  · obtain ⟨m₁, w₁, m₂, w₂, m₃, d, hcap, hm₁, -⟩ := hs
    intro he
    have hc : cap = [] := congrArg String.data he
    rw [hc] at hcap
    have hnil := hcap.symm
    simp only [List.append_eq_nil] at hnil
    rw [hnil.1.1.1.1.1] at hm₁
    simp at hm₁

/-- C9 main analysis: the label of a successful `parseGpu` is judged
discrete with tier at least 1 by `inferGpuTier`. -/
theorem parseGpu_discrete (t label : String) (h : parseGpu t = some label) :
    (inferGpuTier (some label)).isDiscrete = true ∧ 1 ≤ (inferGpuTier (some label)).tier := by
  have hne : label ≠ "" := parseGpu_label_ne h
  rcases parseGpu_eq h with ⟨cap, rfl, hs⟩ | ⟨cap, rfl, hs⟩ | ⟨cap, rfl, hs⟩ | ⟨cap, rfl, hs⟩
  · obtain ⟨w₁, w₂, d, s, ht, hw₁ne, hw₁, hw₂, hdlen, hdd, hsf⟩ :=
      brand_label_lower "NVIDIA " "nvidia ".data (by decide) hs
    refine inferGpuTier_discrete_of hne ?_ (Or.inl ?_)
    · rw [ht]
      exact integrated_false_nv hw₁ hw₂ hdd hsf (by decide) (by decide) (by decide)
        (by decide) (by decide) (by decide) (by decide) (by decide) (by decide)
        (by decide) (by decide) (by decide) (by decide) (by decide)
    · rw [ht]
      exact gpuBrandTest_true (Or.inl (contains_block₄ _ _ _ _ _))
  · obtain ⟨w₁, w₂, d, s, ht, hw₁ne, hw₁, hw₂, hdlen, hdd, hsf⟩ :=
      brand_label_lower "NVIDIA " "nvidia ".data (by decide) hs
    refine inferGpuTier_discrete_of hne ?_ (Or.inl ?_)
    · rw [ht]
      exact integrated_false_nv hw₁ hw₂ hdd hsf (by decide) (by decide) (by decide)
        (by decide) (by decide) (by decide) (by decide) (by decide) (by decide)
        (by decide) (by decide) (by decide) (by decide) (by decide)
    · rw [ht]
      exact gpuBrandTest_true (Or.inr (Or.inl (contains_block₄ _ _ _ _ _)))
  · obtain ⟨w₁, w₂, d, s, ht, hw₁ne, hw₁, hw₂, hdlen, hdd, hsf⟩ :=
      brand_label_lower "AMD " "amd ".data (by decide) hs
    refine inferGpuTier_discrete_of hne ?_ (Or.inr ?_)
    · rw [ht]
      exact integrated_false_nv hw₁ hw₂ hdd hsf (by decide) (by decide) (by decide)
        (by decide) (by decide) (by decide) (by decide) (by decide) (by decide)
        (by decide) (by decide) (by decide) (by decide) (by decide)
    · rw [ht]
      exact modelFindB_isSome_of_shape "rx".data hw₁ne hw₁ hw₂ hdlen hdd
        (fun hnil => by rw [hnil] at hdlen; cases hdlen)
  · obtain ⟨w₁, w₂, d, ht, hw₁ne, hw₁, hw₂ne, hw₂, hdlen, hdd⟩ := arc_label_lower hs
    refine inferGpuTier_discrete_of hne ?_ (Or.inl ?_)
    · rw [ht]
      exact integrated_false_arc hw₁ hw₂ hdd
    · rw [ht]
      exact gpuBrandTest_true (Or.inr (Or.inr (contains_block₃ _ _ _ _)))

/-- The GPU reason line appears for a discrete, non-empty GPU label. -/
theorem scoreOne_gpu_reason {prefs : UserPreferences} {c : PcListing} {label : String}
    (hg : c.gpu = some label) (hne : label ≠ "")
    (hdisc : (inferGpuTier (some label)).isDiscrete = true) :
    ("GPU: " ++ label) ∈ (scoreOne prefs c).reasons := by
  simp only [scoreOne]
  rw [hg, hdisc]
  simp [hne]

/-- C9: every label produced by `parseGpu` is judged a discrete GPU of tier
at least 1 by `inferGpuTier`; consequently every output recommendation whose
listing carries such a label gets its "GPU: …" reason line. -/
theorem parsed_gpu_always_discrete :
    (∀ (t label : String), parseGpu t = some label →
      (inferGpuTier (some label)).isDiscrete = true ∧
        1 ≤ (inferGpuTier (some label)).tier) ∧
    (∀ (cands : List PcListing) (prefs : UserPreferences) (opts : RecOptions)
      (rec : PcRecommendation), rec ∈ recommendFromCandidates cands prefs opts →
      ∀ (t label : String), rec.listing.gpu = some label → parseGpu t = some label →
        ("GPU: " ++ label) ∈ rec.reasons) := by
  refine ⟨parseGpu_discrete, ?_⟩
  intro cands prefs opts rec hrec t label hgpu hparse
  obtain ⟨c, hc, rfl⟩ := mem_recommend hrec
  rw [scoreOne_listing] at hgpu
  exact scoreOne_gpu_reason hgpu (parseGpu_label_ne hparse)
    (parseGpu_discrete t label hparse).1

unseal Rat.mul Rat.add Rat.inv Rat.sub Rat.ofScientific in
/-- Witness for C9 at a concrete title and pipeline run. -/
theorem parsed_gpu_always_discrete_witness :
    ((inferGpuTier (some "NVIDIA GeForce RTX 4060")).isDiscrete = true ∧
      1 ≤ (inferGpuTier (some "NVIDIA GeForce RTX 4060")).tier) ∧
    ("GPU: " ++ "NVIDIA GeForce RTX 4060") ∈ mock1Rec.reasons :=
  ⟨parsed_gpu_always_discrete.1 "GeForce RTX 4060 gaming" "NVIDIA GeForce RTX 4060"
    (by decide),
   parsed_gpu_always_discrete.2 [badPriceListing, mock1] ⟨.b700to999, .s1tb⟩ {} mock1Rec
     ((by decide : recommendFromCandidates [badPriceListing, mock1] ⟨.b700to999, .s1tb⟩ {} =
        [mock1Rec]).symm ▸ List.mem_cons_self mock1Rec [])
     "GeForce RTX 4060 gaming" "NVIDIA GeForce RTX 4060" (by decide) (by decide)⟩

end PcApp
